import Mathlib

/-!
Verification of the meow.di dependency-resolution engine.

The repository ships only its test suite under src/; the engine module
itself (meow/di.py) is not present.  Every definition below is therefore
modelled from the specification document of the engine (its data model in
section 3, the resolver algorithm in section 4.2, the pipeline executor in
section 4.4, the injector facade in sections 4.1 and 6), with the test
suite used to pick concrete mirror instances.

Machine integers do not occur; values are modelled by an inductive `Value`
type.  Producer invocations are stamped with a monotone counter so that
"reference identity" of constructed values is expressible: two values are
reference-identical exactly when they are equal as stamped terms.  A run
additionally records a log of producer and callable invocations so that
"X was invoked / was not invoked" claims are expressible.
-/

namespace MeowDi

/-- Modelled from the spec: a TypeKey is the identity under which a type is
looked up; the two reserved identities `ReturnValue` and `ParameterInfo`
are distinguished constructors, every other declared type is `key n`. -/
inductive TypeKey where
  | returnValue
  | parameterInfo
  | key (n : Nat)
deriving DecidableEq, Repr

/-- Modelled from the spec: the domain of resolved values.  `paramInfo`
is the descriptor carried by the reserved ParameterInfo marker (name and
declared type of the parameter being filled); `constructed stamp` is the
value built by a producer invocation, tagged with the construction counter
at the moment of invocation so that reference identity is decidable. -/
inductive Value where
  | unit
  | nat (n : Nat)
  | str (s : String)
  | pair (a b : Value)
  | field (n : String) (v : Value)
  | paramInfo (pname : String) (ty : TypeKey)
  | constructed (stamp : Nat)
deriving DecidableEq, Repr

/-- Looks a named field up inside a `Value` built as a chain of
`pair (field n v) rest`; used by test-mirror producers that extract a
named entry from a per-call state blob. -/
def Value.lookupField : Value → String → Value
  | Value.pair (Value.field n v) rest, name =>
      if n = name then v else rest.lookupField name
  | _, _ => Value.unit

/-- Name component of a `paramInfo` descriptor value. -/
def Value.piName : Value → String
  | Value.paramInfo n _ => n
  | _ => ""

/-- Modelled from the spec: lifetime tag on every cached entry, `global`
for process lifetime and `call` for the current invocation only. -/
inductive Scope where
  | global
  | call
deriving DecidableEq, Repr

/-- Modelled from the spec: a declared parameter, its name together with
its declared type (`none` when the annotation is missing). -/
structure Param where
  name : String
  ty : Option TypeKey
deriving DecidableEq, Repr

/-- Modelled from the spec: a Producer declares one output TypeKey, an
ordered list of input parameters, a singleton flag and (for the
async-rejection rule) whether it is a suspending unit; `impl` is its
computation, given the construction stamp and the resolved inputs. -/
structure Producer where
  output : TypeKey
  inputs : List Param
  singleton : Bool
  isAsync : Bool
  impl : Nat → List Value → Value

/-- Modelled from the spec: a pipeline callable declares its parameters,
an optional output TypeKey, whether it is a suspending unit, and its
computation on the resolved arguments. -/
structure Callable where
  params : List Param
  output : Option TypeKey
  isAsync : Bool
  impl : List Value → Value

/-- Modelled from the spec: the Type Registry built at construction,
indexing producers by output type, per-call state keys by the type they
populate, and pre-supplied resolved values by their type. -/
structure Registry where
  components : List Producer
  initialState : List (String × TypeKey)
  resolved : List (TypeKey × Value)

/-- Modelled from the spec: the error taxonomy, one public error kind
carrying a reason code. -/
inductive DIError where
  | missingAnn
  | unresolvable
  | illegalSingletonDependency
  | unsupportedCallable
  | cyclicDependency
  | conflictingBinding
deriving DecidableEq, Repr

/-- One entry of the (ghost) invocation log: a producer invocation for a
TypeKey at a given stamp, or the invocation of the pipeline callable at a
given position. -/
inductive LogEntry where
  | producerInvoked (k : TypeKey) (stamp : Nat)
  | callableInvoked (idx : Nat)
deriving DecidableEq, Repr

/-- Modelled from the spec: the per-invocation CallContext state threaded
through one `run` — the call-scoped cache, the previous-result holder, and
(shared mutable parts of the injector) the singleton store and the
construction counter, plus the ghost invocation log. -/
structure RunSt where
  cache : List (TypeKey × (Value × Scope))
  prev : Value
  store : List (TypeKey × Value)
  counter : Nat
  log : List LogEntry
deriving Repr

/-- Association-list lookup by key (first match wins). -/
def alookup {κ α : Type} [DecidableEq κ] (k : κ) : List (κ × α) → Option α
  | [] => none
  | e :: rest => if k = e.1 then some e.2 else alookup k rest

/-- Modelled from the spec: find the Producer registered for a TypeKey. -/
def findProducer (reg : Registry) (k : TypeKey) : Option Producer :=
  reg.components.find? (fun p => p.output == k)

/-- Modelled from the spec: find the state-binding name declared for a
TypeKey in the Initial-State Map. -/
def findBinding (reg : Registry) (k : TypeKey) : Option String :=
  (reg.initialState.find? (fun e => e.2 == k)).map (fun e => e.1)

/-- Result of resolving one parameter: either an error with the state at
the failure point, or a value with its scope and the updated state. -/
abbrev RRes := Except (DIError × RunSt) ((Value × Scope) × RunSt)

/-- Result of resolving a list of producer input parameters. -/
abbrev LRes := Except (DIError × RunSt) ((List (Value × Scope)) × RunSt)

/-- State at the end of a resolution step, successful or not. -/
def stOut {α : Type} : Except (DIError × RunSt) (α × RunSt) → RunSt
  | .ok x => x.2
  | .error e => e.2

/-- Modelled from the spec: the tail of resolver step 7 — the singleton
safety check, the async check, the producer invocation, and storing the
result at the correct scope (SingletonStore if singleton, call-scoped
cache otherwise). -/
def invokeProducer (P : Producer) (k : TypeKey) (vis : List (Value × Scope))
    (st : RunSt) : RRes :=
  if P.singleton && vis.any (fun x => x.2 == Scope.call) then
    .error (.illegalSingletonDependency, st)
  else if P.isAsync then
    .error (.unsupportedCallable, st)
  else
    let v := P.impl st.counter (vis.map (fun x => x.1))
    let st2 : RunSt := { st with counter := st.counter + 1,
                                 log := st.log ++ [LogEntry.producerInvoked k st.counter] }
    if P.singleton then
      .ok ((v, Scope.global), { st2 with store := (k, v) :: st2.store })
    else
      .ok ((v, Scope.call), { st2 with cache := (k, (v, Scope.call)) :: st2.cache })

/-- Modelled from the spec: resolve an ordered list of producer input
parameters left to right, threading the state; `recur` is the resolver for
a single parameter. -/
def resolveList (recur : (String × TypeKey) → Param → List TypeKey → RunSt → RRes)
    (parent : String × TypeKey) :
    List Param → List TypeKey → RunSt → LRes
  | [], _, st => .ok ([], st)
  | q :: rest, stack, st =>
    match recur parent q stack st with
    | .error e => .error e
    | .ok ((v, sc), st') =>
      match resolveList recur parent rest stack st' with
      | .error e => .error e
      | .ok (vs, st'') => .ok ((v, sc) :: vs, st'')

/-- Modelled from the spec: one stage of the recursive resolver (section
4.2, steps 1-7) for the parameter `q`, demanded on behalf of the parameter
`parent` (name and declared type); `recur` resolves the producer's own
inputs.  The in-progress build stack `stack` detects cyclic registration. -/
def resolveStep (reg : Registry) (sa : List (String × Value))
    (recur : (String × TypeKey) → Param → List TypeKey → RunSt → RRes)
    (parent : String × TypeKey) (q : Param) (stack : List TypeKey)
    (st : RunSt) : RRes :=
  match q.ty with
  | none => .error (.missingAnn, st)
  | some k =>
    if k = TypeKey.returnValue then .ok ((st.prev, Scope.call), st)
    else if k = TypeKey.parameterInfo then
      .ok ((Value.paramInfo parent.1 parent.2, Scope.call), st)
    else
      match alookup k st.cache with
      | some vs => .ok ((vs.1, vs.2), st)
      | none =>
        match alookup k reg.resolved with
        | some v => .ok ((v, Scope.global), { st with cache := (k, (v, Scope.global)) :: st.cache })
        | none =>
          match alookup k st.store with
          | some v => .ok ((v, Scope.global), st)
          | none =>
            match (findBinding reg k).bind (fun n => alookup n sa) with
            | some v => .ok ((v, Scope.call), { st with cache := (k, (v, Scope.call)) :: st.cache })
            | none =>
              match findProducer reg k with
              | none => .error (.unresolvable, st)
              | some P =>
                if k ∈ stack then .error (.cyclicDependency, st)
                else if P.inputs.any (fun q' => q'.ty.isNone) then
                  .error (.missingAnn, st)
                else
                  match resolveList recur (q.name, k) P.inputs (k :: stack) st with
                  | .error e => .error e
                  | .ok (vis, st') => invokeProducer P k vis st'

/-- Modelled from the spec: the recursive resolver, with a fuel argument
bounding the recursion depth; the driver supplies fuel exceeding the
number of registered producers, which the cyclic-registration check makes
sufficient. -/
def resolveParam (reg : Registry) (sa : List (String × Value)) :
    Nat → (String × TypeKey) → Param → List TypeKey → RunSt → RRes
  | 0, _, _, _, st => .error (.cyclicDependency, st)
  | fuel + 1, parent, q, stack, st =>
      resolveStep reg sa (resolveParam reg sa fuel) parent q stack st

/-- The declared type of a top-level parameter, used as its own parent
descriptor type. -/
def topKey (q : Param) : TypeKey := q.ty.getD TypeKey.parameterInfo

/-- Modelled from the spec: resolve one top-level callable parameter; the
ParameterInfo descriptor passed down is that of the parameter itself, and
the build stack starts empty. -/
def resolveTop (reg : Registry) (sa : List (String × Value)) (fuel : Nat)
    (q : Param) (st : RunSt) : RRes :=
  resolveParam reg sa fuel (q.name, topKey q) q [] st

/-- Modelled from the spec: resolve all declared parameters of a pipeline
callable, in order. -/
def resolveArgs (reg : Registry) (sa : List (String × Value)) (fuel : Nat) :
    List Param → RunSt → Except (DIError × RunSt) ((List Value) × RunSt)
  | [], st => .ok ([], st)
  | q :: rest, st =>
    match resolveTop reg sa fuel q st with
    | .error e => .error e
    | .ok ((v, _), st') =>
      match resolveArgs reg sa fuel rest st' with
      | .error e => .error e
      | .ok (vs, st'') => .ok (v :: vs, st'')

/-- Modelled from the spec: pipeline executor steps 1-5 for the callable
at position `idx` — resolve the parameters, reject suspending callables,
invoke, set the previous-result holder unconditionally, and store a
declared output into the call-scoped cache with Scope=Call, overriding any
previously cached value for that type. -/
def execCallable (reg : Registry) (sa : List (String × Value)) (fuel : Nat)
    (idx : Nat) (f : Callable) (st : RunSt) :
    Except (DIError × RunSt) (Value × RunSt) :=
  match resolveArgs reg sa fuel f.params st with
  | .error e => .error e
  | .ok (args, st') =>
    if f.isAsync then .error (.unsupportedCallable, st')
    else
      let v := f.impl args
      let st2 : RunSt := { st' with prev := v,
                                    log := st'.log ++ [LogEntry.callableInvoked idx] }
      match f.output with
      | none => .ok (v, st2)
      | some k => .ok (v, { st2 with cache := (k, (v, Scope.call)) :: st2.cache })

/-- Modelled from the spec: run an ordered sequence of callables as one
logical invocation, returning the last callable's result (the
previous-result holder when the sequence is empty). -/
def execPipeline (reg : Registry) (sa : List (String × Value)) (fuel : Nat) :
    Nat → List Callable → RunSt → Except (DIError × RunSt) (Value × RunSt)
  | _, [], st => .ok (st.prev, st)
  | idx, f :: rest, st =>
    match execCallable reg sa fuel idx f st with
    | .error e => .error e
    | .ok (_, st') => execPipeline reg sa fuel (idx + 1) rest st'

/-- Modelled from the spec: the initial sentinel held by the
previous-result binding at the start of each run. -/
def initialSentinel : Value := Value.unit

/-- Modelled from the spec: the Injector facade owns the immutable Type
Registry, the SingletonStore and the construction counter. -/
structure Injector where
  reg : Registry
  store : List (TypeKey × Value)
  counter : Nat

/-- Outcome of one `run`: the structured result, the injector state after
the call (a failed run keeps the mutations made before the failure), and
the ghost invocation log of the call. -/
structure RunOutcome where
  result : Except DIError Value
  inj : Injector
  log : List LogEntry

/-- Fuel supplied by the driver: one more than the number of registered
producers, which the cycle check makes a bound on the resolution depth. -/
def defaultFuel (reg : Registry) : Nat := reg.components.length + 1

/-- Modelled from the spec: the fresh CallContext created for each run —
empty call-scoped cache, sentinel previous-result, shared store and
counter. -/
def initRunSt (inj : Injector) : RunSt :=
  { cache := [], prev := initialSentinel, store := inj.store,
    counter := inj.counter, log := [] }

/-- Modelled from the spec: the single public invocation entry point.
Each call executes the pipeline against a new CallContext, shares the
registry and the singleton store, and returns the final result or the
structured error it surfaces; the call-scoped cache is discarded in full
either way. -/
def Injector.run (inj : Injector) (fs : List Callable)
    (sa : List (String × Value)) : RunOutcome :=
  match execPipeline inj.reg sa (defaultFuel inj.reg) 0 fs (initRunSt inj) with
  | .ok (v, st') => ⟨.ok v, ⟨inj.reg, st'.store, st'.counter⟩, st'.log⟩
  | .error (e, st') => ⟨.error e, ⟨inj.reg, st'.store, st'.counter⟩, st'.log⟩

/-- The TypeKeys claimed by any source in the registry, in registration
groups: producer outputs, then resolved-value keys, then state-binding
keys. -/
def Registry.allKeys (reg : Registry) : List TypeKey :=
  reg.components.map (fun p => p.output) ++ reg.resolved.map (fun e => e.1)
    ++ reg.initialState.map (fun e => e.2)

/-- Modelled from the spec: registry validity — no TypeKey is bound by
more than one source, and the two reserved identities are not claimed by
any source. -/
def Registry.Wf (reg : Registry) : Prop :=
  reg.allKeys.Nodup ∧ TypeKey.returnValue ∉ reg.allKeys
    ∧ TypeKey.parameterInfo ∉ reg.allKeys

instance (reg : Registry) : Decidable reg.Wf := by
  unfold Registry.Wf; infer_instance

/-- Modelled from the spec: Injector construction validates that no
TypeKey is bound by more than one source and fails with a registration
error on conflict; parameter annotations are not inspected here. -/
def Injector.construct (components : List Producer)
    (initialState : List (String × TypeKey))
    (resolved : List (TypeKey × Value)) : Except DIError Injector :=
  let reg : Registry := ⟨components, initialState, resolved⟩
  if reg.Wf then .ok ⟨reg, [], 0⟩ else .error .conflictingBinding

/-- Number of producer invocations recorded for a TypeKey. -/
def prodCount (k : TypeKey) (log : List LogEntry) : Nat :=
  log.countP (fun e => match e with
    | LogEntry.producerInvoked k' _ => k' == k
    | _ => false)

/-- Number of callable invocations recorded. -/
def callCount (log : List LogEntry) : Nat :=
  log.countP (fun e => match e with
    | LogEntry.callableInvoked _ => true
    | _ => false)

/-! Generic pipeline callables used to state the claims. -/

/-- A callable with a single parameter of the given name and type that
returns the resolved value unchanged. -/
def readerNamed (n : String) (k : TypeKey) : Callable :=
  ⟨[⟨n, some k⟩], none, false, fun vs => vs.headD Value.unit⟩

/-- A callable with one parameter of the given type returning it. -/
def reader (k : TypeKey) : Callable := readerNamed ("x") k

/-- A callable demanding the same type twice, returning the pair of the
two resolved values. -/
def reader2 (k : TypeKey) : Callable :=
  ⟨[⟨("a"), some k⟩, ⟨("b"), some k⟩], none, false,
   fun vs => Value.pair (vs.getD 0 Value.unit) (vs.getD 1 Value.unit)⟩

/-- A callable with no parameters that returns `w` and declares output
type `k`. -/
def constOut (k : TypeKey) (w : Value) : Callable :=
  ⟨[], some k, false, fun _ => w⟩

/-- A suspending callable with one parameter of the given type. -/
def asyncReader (k : TypeKey) : Callable :=
  ⟨[⟨("x"), some k⟩], none, true, fun vs => vs.headD Value.unit⟩

/-- A callable demanding the previous callable's result and returning it. -/
def probe : Callable := readerNamed ("ret") TypeKey.returnValue

/-! Concrete mirror of the repository's test fixture (tests/test_di.py):
the TypeKeys of App, AnotherSingleton, RandomGenerator, RandomValue,
State, StateValue and BadSingleton, the five registered components, the
pre-resolved App value and the initial-state binding. -/

def appKey : TypeKey := TypeKey.key 0
def anotherKey : TypeKey := TypeKey.key 1
def genKey : TypeKey := TypeKey.key 2
def rvKey : TypeKey := TypeKey.key 3
def stateKey : TypeKey := TypeKey.key 4
def svKey : TypeKey := TypeKey.key 5
def badKey : TypeKey := TypeKey.key 6

/-- Mirror of RandomValueComponent: non-singleton, depends on the
generator, produces a different value on every invocation (stamped). -/
def rvComp : Producer :=
  ⟨rvKey, [⟨("generator"), some genKey⟩], false, false,
   fun stamp _ => Value.constructed stamp⟩

/-- Mirror of AnotherSingletonComponent: singleton, depends on App. -/
def anotherComp : Producer :=
  ⟨anotherKey, [⟨("app"), some appKey⟩], true, false,
   fun stamp _ => Value.constructed stamp⟩

/-- Mirror of RandomGeneratorComponent: singleton, depends on App and
AnotherSingleton. -/
def genComp : Producer :=
  ⟨genKey, [⟨("app"), some appKey⟩, ⟨("another"), some anotherKey⟩], true, false,
   fun stamp _ => Value.constructed stamp⟩

/-- Mirror of StateValueComponent: non-singleton, extracts from the
per-call state blob the field named after the parameter being filled. -/
def svComp : Producer :=
  ⟨svKey, [⟨("state"), some stateKey⟩, ⟨("param"), some TypeKey.parameterInfo⟩],
   false, false,
   fun _ args => (args.getD 0 Value.unit).lookupField ((args.getD 1 Value.unit).piName)⟩

/-- Mirror of BadSingletonComponent: a singleton depending on the
call-scoped StateValue. -/
def badComp : Producer :=
  ⟨badKey, [⟨("key1"), some svKey⟩], true, false,
   fun stamp _ => Value.constructed stamp⟩

/-- Mirror of the test fixture registry. -/
def testReg : Registry :=
  ⟨[rvComp, anotherComp, genComp, svComp, badComp],
   [(("state"), stateKey)],
   [(appKey, Value.str ("app"))]⟩

/-- Mirror of the test fixture injector, freshly constructed. -/
def testInj : Injector := ⟨testReg, [], 0⟩

/-- Mirror of the per-call state blob built by new_state(). -/
def testBlob : Value :=
  Value.pair (Value.field ("key") (Value.str ("value")))
    (Value.pair (Value.field ("key2") (Value.str ("value2"))) Value.unit)

/-- Mirror of the state mapping passed to run in the tests. -/
def testSA : List (String × Value) := [(("state"), testBlob)]

/-- Mirror of get_key: a callable whose parameter is named "key" and
demands StateValue. -/
def getKeyCallable : Callable := readerNamed ("key") svKey

/-! Small auxiliary registries used by individual claims. -/

/-- A lone non-singleton stamped producer for `key 10`. -/
def ckKey : TypeKey := TypeKey.key 10

def ckComp : Producer :=
  ⟨ckKey, [], false, false, fun stamp _ => Value.constructed stamp⟩

def ckReg : Registry := ⟨[ckComp], [], []⟩

def ckInj : Injector := ⟨ckReg, [], 0⟩

/-- The pipeline callable that observes the cached value of `key 10` and
overrides that type with a value embedding what it observed. -/
def ckOverrider : Callable :=
  ⟨[⟨("x"), some ckKey⟩], some ckKey, false,
   fun vs => Value.pair (Value.str ("o")) (vs.headD Value.unit)⟩

/-- A suspending producer for `key 11` with no inputs. -/
def apKey : TypeKey := TypeKey.key 11

def apComp : Producer :=
  ⟨apKey, [], false, true, fun stamp _ => Value.constructed stamp⟩

def apReg : Registry := ⟨[apComp], [], []⟩

def apInj : Injector := ⟨apReg, [], 0⟩

/-- A producer for `key 20` whose single input is the reserved
ParameterInfo marker, returned unchanged. -/
def piKey : TypeKey := TypeKey.key 20

def piComp : Producer :=
  ⟨piKey, [⟨("p"), some TypeKey.parameterInfo⟩], false, false,
   fun _ args => args.headD Value.unit⟩

def piReg : Registry := ⟨[piComp], [], []⟩

def piInj : Injector := ⟨piReg, [], 0⟩

/-- A pipeline callable with no parameters. -/
def ranCallable : Callable := ⟨[], none, false, fun _ => Value.str ("ran")⟩

/-- A pipeline callable whose only parameter lacks a type annotation. -/
def noAnnCallable : Callable := ⟨[⟨("x"), none⟩], none, false, fun _ => Value.unit⟩

/-- An injector with an empty registry. -/
def emptyInj : Injector := ⟨⟨[], [], []⟩, [], 0⟩

/-- A producer for `key 12` with an unannotated input parameter,
mirroring the BadComponent of test_error_no_component_annotation. -/
def naKey : TypeKey := TypeKey.key 12

def naComp : Producer :=
  ⟨naKey, [⟨("x"), none⟩], false, false, fun _ _ => Value.nat 42⟩

def naReg : Registry := ⟨[naComp], [], []⟩

def naInj : Injector := ⟨naReg, [], 0⟩

/-! Lookup lemmas. -/

theorem alookup_cons_self {κ α : Type} [DecidableEq κ] (k : κ) (v : α)
    (l : List (κ × α)) : alookup k ((k, v) :: l) = some v := by
  simp [alookup]

theorem alookup_cons_ne {κ α : Type} [DecidableEq κ] {k k' : κ} (v : α)
    (l : List (κ × α)) (h : k ≠ k') : alookup k ((k', v) :: l) = alookup k l := by
  simp [alookup, h]

theorem alookup_mem_keys {κ α : Type} [DecidableEq κ] {k : κ} {v : α}
    {l : List (κ × α)} (h : alookup k l = some v) : k ∈ l.map Prod.fst := by
  induction l with
  | nil => simp [alookup] at h
  | cons e rest ih =>
    by_cases hk : k = e.1
    · subst hk; simp
    · rw [alookup_cons_ne _ _ hk] at h
      simpa using Or.inr (ih h)

theorem alookup_eq_none {κ α : Type} [DecidableEq κ] {k : κ}
    {l : List (κ × α)} (h : k ∉ l.map Prod.fst) : alookup k l = none := by
  induction l with
  | nil => rfl
  | cons e rest ih =>
    simp only [List.map_cons, List.mem_cons] at h
    push_neg at h
    rw [alookup_cons_ne _ _ h.1]
    exact ih h.2

theorem findProducer_some_output {reg : Registry} {k : TypeKey} {P : Producer}
    (h : findProducer reg k = some P) : P.output = k := by
  have := List.find?_some h
  simpa using this

theorem findProducer_some_mem {reg : Registry} {k : TypeKey} {P : Producer}
    (h : findProducer reg k = some P) :
    k ∈ reg.components.map (fun p => p.output) := by
  have hm := List.mem_of_find?_eq_some h
  have ho := findProducer_some_output h
  exact List.mem_map.2 ⟨P, hm, ho⟩

theorem findProducer_eq_none {reg : Registry} {k : TypeKey}
    (h : k ∉ reg.components.map (fun p => p.output)) :
    findProducer reg k = none := by
  apply List.find?_eq_none.2
  intro p hp hbeq
  exact h (List.mem_map.2 ⟨p, hp, by simpa using hbeq⟩)

theorem findBinding_some_mem {reg : Registry} {k : TypeKey} {n : String}
    (h : findBinding reg k = some n) :
    k ∈ reg.initialState.map (fun e => e.2) := by
  unfold findBinding at h
  rcases Option.map_eq_some'.1 h with ⟨e, he, _⟩
  have hm := List.mem_of_find?_eq_some he
  have hp := List.find?_some he
  exact List.mem_map.2 ⟨e, hm, by simpa using hp⟩

theorem findBinding_eq_none {reg : Registry} {k : TypeKey}
    (h : k ∉ reg.initialState.map (fun e => e.2)) :
    findBinding reg k = none := by
  unfold findBinding
  rw [List.find?_eq_none.2]
  · rfl
  · intro e he hbeq
    exact h (List.mem_map.2 ⟨e, he, by simpa using hbeq⟩)

/-! Consequences of registry well-formedness. -/

theorem Wf.disjoint_pr {reg : Registry} (hwf : reg.Wf) {k : TypeKey}
    (h : k ∈ reg.components.map (fun p => p.output)) :
    k ∉ reg.resolved.map (fun e => e.1) ∧
      k ∉ reg.initialState.map (fun e => e.2) := by
  have hn := hwf.1
  unfold Registry.allKeys at hn
  rw [List.nodup_append, List.nodup_append] at hn
  refine ⟨fun hk => hn.1.2.2 h hk, fun hk => hn.2.2 (List.mem_append_left _ h) hk⟩

theorem Wf.disjoint_rb {reg : Registry} (hwf : reg.Wf) {k : TypeKey}
    (h : k ∈ reg.initialState.map (fun e => e.2)) :
    k ∉ reg.resolved.map (fun e => e.1) ∧
      k ∉ reg.components.map (fun p => p.output) := by
  have hn := hwf.1
  unfold Registry.allKeys at hn
  rw [List.nodup_append] at hn
  constructor
  · intro hk
    exact hn.2.2 (List.mem_append_right _ hk) h
  · intro hk
    exact hn.2.2 (List.mem_append_left _ hk) h

theorem Wf.not_reserved {reg : Registry} (hwf : reg.Wf) {k : TypeKey}
    (h : k ∈ reg.allKeys) :
    k ≠ TypeKey.returnValue ∧ k ≠ TypeKey.parameterInfo := by
  constructor
  · rintro rfl; exact hwf.2.1 h
  · rintro rfl; exact hwf.2.2 h

theorem mem_allKeys_of_prod {reg : Registry} {k : TypeKey}
    (h : k ∈ reg.components.map (fun p => p.output)) : k ∈ reg.allKeys := by
  unfold Registry.allKeys
  simp [h]

theorem mem_allKeys_of_binding {reg : Registry} {k : TypeKey}
    (h : k ∈ reg.initialState.map (fun e => e.2)) : k ∈ reg.allKeys := by
  unfold Registry.allKeys
  simp [h]

theorem mem_allKeys_of_resolved {reg : Registry} {k : TypeKey}
    (h : k ∈ reg.resolved.map (fun e => e.1)) : k ∈ reg.allKeys := by
  unfold Registry.allKeys
  simp [h]

/-- All the resolver-relevant facts following from well-formedness when a
producer is registered for `k`. -/
theorem wf_producer_facts {reg : Registry} {k : TypeKey} {P : Producer}
    (hwf : reg.Wf) (hp : findProducer reg k = some P) :
    k ≠ TypeKey.returnValue ∧ k ≠ TypeKey.parameterInfo ∧
      alookup k reg.resolved = none ∧ findBinding reg k = none := by
  have hm := findProducer_some_mem hp
  have hres := Wf.not_reserved hwf (mem_allKeys_of_prod hm)
  have hd := Wf.disjoint_pr hwf hm
  refine ⟨hres.1, hres.2, alookup_eq_none ?_, findBinding_eq_none hd.2⟩
  simpa using hd.1

/-- All the resolver-relevant facts following from well-formedness when a
state binding is registered for `k`. -/
theorem wf_binding_facts {reg : Registry} {k : TypeKey} {n : String}
    (hwf : reg.Wf) (hb : findBinding reg k = some n) :
    k ≠ TypeKey.returnValue ∧ k ≠ TypeKey.parameterInfo ∧
      alookup k reg.resolved = none ∧ findProducer reg k = none := by
  have hm := findBinding_some_mem hb
  have hres := Wf.not_reserved hwf (mem_allKeys_of_binding hm)
  have hd := Wf.disjoint_rb hwf hm
  refine ⟨hres.1, hres.2, alookup_eq_none ?_, findProducer_eq_none hd.2⟩
  simpa using hd.1

/-! Branch lemmas for the resolver, one per step of spec section 4.2. -/

section Branches

variable {reg : Registry} {sa : List (String × Value)}
variable {recur : (String × TypeKey) → Param → List TypeKey → RunSt → RRes}
variable {parent : String × TypeKey} {q : Param} {stack : List TypeKey} {st : RunSt}

theorem resolveStep_noAnn (hq : q.ty = none) :
    resolveStep reg sa recur parent q stack st = .error (.missingAnn, st) := by
  simp [resolveStep, hq]

theorem resolveStep_retVal (hq : q.ty = some TypeKey.returnValue) :
    resolveStep reg sa recur parent q stack st = .ok ((st.prev, Scope.call), st) := by
  simp [resolveStep, hq]

theorem resolveStep_pinfo (hq : q.ty = some TypeKey.parameterInfo) :
    resolveStep reg sa recur parent q stack st =
      .ok ((Value.paramInfo parent.1 parent.2, Scope.call), st) := by
  simp [resolveStep, hq]

variable {k : TypeKey}

theorem resolveStep_cached (hq : q.ty = some k)
    (h1 : k ≠ TypeKey.returnValue) (h2 : k ≠ TypeKey.parameterInfo)
    {v : Value} {sc : Scope} (hc : alookup k st.cache = some (v, sc)) :
    resolveStep reg sa recur parent q stack st = .ok ((v, sc), st) := by
  simp [resolveStep, hq, h1, h2, hc]

theorem resolveStep_resolved (hq : q.ty = some k)
    (h1 : k ≠ TypeKey.returnValue) (h2 : k ≠ TypeKey.parameterInfo)
    (hc : alookup k st.cache = none) {v : Value}
    (hr : alookup k reg.resolved = some v) :
    resolveStep reg sa recur parent q stack st =
      .ok ((v, Scope.global), { st with cache := (k, (v, Scope.global)) :: st.cache }) := by
  simp [resolveStep, hq, h1, h2, hc, hr]

theorem resolveStep_stored (hq : q.ty = some k)
    (h1 : k ≠ TypeKey.returnValue) (h2 : k ≠ TypeKey.parameterInfo)
    (hc : alookup k st.cache = none) (hr : alookup k reg.resolved = none)
    {v : Value} (hs : alookup k st.store = some v) :
    resolveStep reg sa recur parent q stack st = .ok ((v, Scope.global), st) := by
  simp [resolveStep, hq, h1, h2, hc, hr, hs]

theorem resolveStep_state (hq : q.ty = some k)
    (h1 : k ≠ TypeKey.returnValue) (h2 : k ≠ TypeKey.parameterInfo)
    (hc : alookup k st.cache = none) (hr : alookup k reg.resolved = none)
    (hs : alookup k st.store = none) {v : Value}
    (hb : (findBinding reg k).bind (fun n => alookup n sa) = some v) :
    resolveStep reg sa recur parent q stack st =
      .ok ((v, Scope.call), { st with cache := (k, (v, Scope.call)) :: st.cache }) := by
  simp [resolveStep, hq, h1, h2, hc, hr, hs, hb]

theorem resolveStep_unres (hq : q.ty = some k)
    (h1 : k ≠ TypeKey.returnValue) (h2 : k ≠ TypeKey.parameterInfo)
    (hc : alookup k st.cache = none) (hr : alookup k reg.resolved = none)
    (hs : alookup k st.store = none)
    (hb : (findBinding reg k).bind (fun n => alookup n sa) = none)
    (hp : findProducer reg k = none) :
    resolveStep reg sa recur parent q stack st = .error (.unresolvable, st) := by
  simp [resolveStep, hq, h1, h2, hc, hr, hs, hb, hp]

variable {P : Producer}

theorem resolveStep_inputNoAnn (hq : q.ty = some k)
    (h1 : k ≠ TypeKey.returnValue) (h2 : k ≠ TypeKey.parameterInfo)
    (hc : alookup k st.cache = none) (hr : alookup k reg.resolved = none)
    (hs : alookup k st.store = none)
    (hb : (findBinding reg k).bind (fun n => alookup n sa) = none)
    (hp : findProducer reg k = some P) (hstk : k ∉ stack)
    (ha : P.inputs.any (fun q' => q'.ty.isNone) = true) :
    resolveStep reg sa recur parent q stack st = .error (.missingAnn, st) := by
  simp [resolveStep, hq, h1, h2, hc, hr, hs, hb, hp, hstk, ha]

theorem resolveStep_producer (hq : q.ty = some k)
    (h1 : k ≠ TypeKey.returnValue) (h2 : k ≠ TypeKey.parameterInfo)
    (hc : alookup k st.cache = none) (hr : alookup k reg.resolved = none)
    (hs : alookup k st.store = none)
    (hb : (findBinding reg k).bind (fun n => alookup n sa) = none)
    (hp : findProducer reg k = some P) (hstk : k ∉ stack)
    (ha : P.inputs.any (fun q' => q'.ty.isNone) = false) :
    resolveStep reg sa recur parent q stack st =
      match resolveList recur (q.name, k) P.inputs (k :: stack) st with
      | .error e => .error e
      | .ok (vis, st') => invokeProducer P k vis st' := by
  simp [resolveStep, hq, h1, h2, hc, hr, hs, hb, hp, hstk, ha]

end Branches

/-! Case lemmas for the producer-invocation tail. -/

section Invoke

variable {P : Producer} {k : TypeKey} {vis : List (Value × Scope)} {st : RunSt}

theorem invokeProducer_illegal
    (h : (P.singleton && vis.any (fun x => x.2 == Scope.call)) = true) :
    invokeProducer P k vis st = .error (.illegalSingletonDependency, st) := by
  simp only [invokeProducer, h, if_true]

theorem invokeProducer_async
    (h : (P.singleton && vis.any (fun x => x.2 == Scope.call)) = false)
    (ha : P.isAsync = true) :
    invokeProducer P k vis st = .error (.unsupportedCallable, st) := by
  simp [invokeProducer, h, ha]

theorem invokeProducer_single
    (hs : P.singleton = true)
    (h : vis.any (fun x => x.2 == Scope.call) = false)
    (ha : P.isAsync = false) :
    invokeProducer P k vis st =
      .ok ((P.impl st.counter (vis.map (fun x => x.1)), Scope.global),
        { st with counter := st.counter + 1,
                  log := st.log ++ [LogEntry.producerInvoked k st.counter],
                  store := (k, P.impl st.counter (vis.map (fun x => x.1))) :: st.store }) := by
  simp [invokeProducer, hs, h, ha]

theorem invokeProducer_callScoped
    (hs : P.singleton = false) (ha : P.isAsync = false) :
    invokeProducer P k vis st =
      .ok ((P.impl st.counter (vis.map (fun x => x.1)), Scope.call),
        { st with counter := st.counter + 1,
                  log := st.log ++ [LogEntry.producerInvoked k st.counter],
                  cache := (k, (P.impl st.counter (vis.map (fun x => x.1)), Scope.call)) :: st.cache }) := by
  simp [invokeProducer, hs, ha]

end Invoke

/-- An extra branch lemma: cyclic re-entry on the build stack. -/
theorem resolveStep_cyclic {reg : Registry} {sa : List (String × Value)}
    {recur : (String × TypeKey) → Param → List TypeKey → RunSt → RRes}
    {parent : String × TypeKey} {q : Param} {stack : List TypeKey} {st : RunSt}
    {k : TypeKey} (hq : q.ty = some k)
    (h1 : k ≠ TypeKey.returnValue) (h2 : k ≠ TypeKey.parameterInfo)
    (hc : alookup k st.cache = none) (hr : alookup k reg.resolved = none)
    (hs : alookup k st.store = none)
    (hb : (findBinding reg k).bind (fun n => alookup n sa) = none)
    {P : Producer} (hp : findProducer reg k = some P) (hstk : k ∈ stack) :
    resolveStep reg sa recur parent q stack st = .error (.cyclicDependency, st) := by
  simp [resolveStep, hq, h1, h2, hc, hr, hs, hb, hp, hstk]

/-! Log-counting lemmas. -/

theorem prodCount_append_prod {k k' : TypeKey} {l : List LogEntry} {c : Nat}
    (h : k' ≠ k) :
    prodCount k (l ++ [LogEntry.producerInvoked k' c]) = prodCount k l := by
  simp [prodCount, List.countP_append, List.countP_cons, h]

theorem prodCount_append_call {k : TypeKey} {l : List LogEntry} {i : Nat} :
    prodCount k (l ++ [LogEntry.callableInvoked i]) = prodCount k l := by
  simp [prodCount, List.countP_append, List.countP_cons]

theorem callCount_append_prod {k : TypeKey} {l : List LogEntry} {c : Nat} :
    callCount (l ++ [LogEntry.producerInvoked k c]) = callCount l := by
  simp [callCount, List.countP_append, List.countP_cons]

theorem callCount_append_call {l : List LogEntry} {i : Nat} :
    callCount (l ++ [LogEntry.callableInvoked i]) = callCount l + 1 := by
  simp [callCount, List.countP_append, List.countP_cons]

/-- `k` is the output type of some registered producer. -/
def isProdKey (reg : Registry) (k : TypeKey) : Prop :=
  k ∈ reg.components.map (fun p => p.output)

/-- The resolver invariant: across one resolution, existing singleton
store entries survive unchanged, no pipeline callable is invoked, and any
TypeKey on the in-progress build stack has its store entry, its producer
invocation count and (when a producer serves it) its cache entry left
untouched. -/
structure Protect (reg : Registry) (stack : List TypeKey) (st st' : RunSt) : Prop where
  sub : ∀ k v, alookup k st.store = some v → alookup k st'.store = some v
  calls : callCount st'.log = callCount st.log
  at_stack : ∀ k, k ∈ stack →
    alookup k st'.store = alookup k st.store ∧
    prodCount k st'.log = prodCount k st.log ∧
    (isProdKey reg k → alookup k st'.cache = alookup k st.cache)

theorem Protect.refl (reg : Registry) (stack : List TypeKey) (st : RunSt) :
    Protect reg stack st st :=
  ⟨fun _ _ h => h, rfl, fun _ _ => ⟨rfl, rfl, fun _ => rfl⟩⟩

theorem Protect.trans {reg : Registry} {stack : List TypeKey} {st1 st2 st3 : RunSt}
    (h1 : Protect reg stack st1 st2) (h2 : Protect reg stack st2 st3) :
    Protect reg stack st1 st3 := by
  refine ⟨fun k v h => h2.sub k v (h1.sub k v h), h2.calls.trans h1.calls, fun k hk => ?_⟩
  obtain ⟨a1, b1, c1⟩ := h1.at_stack k hk
  obtain ⟨a2, b2, c2⟩ := h2.at_stack k hk
  exact ⟨a2.trans a1, b2.trans b1, fun hp => (c2 hp).trans (c1 hp)⟩

theorem Protect.weaken {reg : Registry} {stack stack' : List TypeKey}
    {st st' : RunSt} (h : Protect reg stack st st')
    (hsub : ∀ k, k ∈ stack' → k ∈ stack) : Protect reg stack' st st' :=
  ⟨h.sub, h.calls, fun k hk => h.at_stack k (hsub k hk)⟩

theorem Protect.cache_cons {reg : Registry} {stack : List TypeKey} {st : RunSt}
    {k0 : TypeKey} {x : Value × Scope} (h : ¬ isProdKey reg k0) :
    Protect reg stack st { st with cache := (k0, x) :: st.cache } := by
  refine ⟨fun _ _ h => h, rfl, fun k hk => ⟨rfl, rfl, fun hpk => ?_⟩⟩
  exact alookup_cons_ne _ _ (fun he => h (he ▸ hpk))

/-- The invariant lifted over input-list resolution, given it holds for
the single-parameter resolver. -/
theorem resolveList_protect_of {reg : Registry}
    {recur : (String × TypeKey) → Param → List TypeKey → RunSt → RRes}
    (hrec : ∀ parent q stack st, Protect reg stack st (stOut (recur parent q stack st))) :
    ∀ (qs : List Param) (parent : String × TypeKey) (stack : List TypeKey) (st : RunSt),
      Protect reg stack st (stOut (resolveList recur parent qs stack st)) := by
  intro qs
  induction qs with
  | nil =>
    intro parent stack st
    exact Protect.refl reg stack st
  | cons q rest ih =>
    intro parent stack st
    have hA := hrec parent q stack st
    cases h1 : recur parent q stack st with
    | error e =>
      rw [h1] at hA
      simpa [resolveList, h1] using hA
    | ok x =>
      obtain ⟨⟨v, sc⟩, st1⟩ := x
      rw [h1] at hA
      have hB := ih parent stack st1
      cases h2 : resolveList recur parent rest stack st1 with
      | error e =>
        rw [h2] at hB
        simpa [resolveList, h1, h2] using hA.trans hB
      | ok y =>
        obtain ⟨vs, st2⟩ := y
        rw [h2] at hB
        simpa [resolveList, h1, h2] using hA.trans hB

/-- The invariant holds across one resolver stage. -/
theorem resolveStep_protect {reg : Registry} {sa : List (String × Value)}
    {recur : (String × TypeKey) → Param → List TypeKey → RunSt → RRes}
    (hwf : reg.Wf)
    (hrec : ∀ parent q stack st, Protect reg stack st (stOut (recur parent q stack st))) :
    ∀ parent q stack st,
      Protect reg stack st (stOut (resolveStep reg sa recur parent q stack st)) := by
  intro parent q stack st
  cases hq : q.ty with
  | none =>
    rw [resolveStep_noAnn hq]; exact Protect.refl reg stack st
  | some k =>
    by_cases h1 : k = TypeKey.returnValue
    · subst h1; rw [resolveStep_retVal hq]; exact Protect.refl reg stack st
    by_cases h2 : k = TypeKey.parameterInfo
    · subst h2; rw [resolveStep_pinfo hq]; exact Protect.refl reg stack st
    cases hc : alookup k st.cache with
    | some vs =>
      obtain ⟨v, sc⟩ := vs
      rw [resolveStep_cached hq h1 h2 hc]; exact Protect.refl reg stack st
    | none =>
    cases hr : alookup k reg.resolved with
    | some v =>
      rw [resolveStep_resolved hq h1 h2 hc hr]
      exact Protect.cache_cons (fun hpk => (Wf.disjoint_pr hwf hpk).1 (alookup_mem_keys hr))
    | none =>
    cases hs : alookup k st.store with
    | some v =>
      rw [resolveStep_stored hq h1 h2 hc hr hs]; exact Protect.refl reg stack st
    | none =>
    cases hb : (findBinding reg k).bind (fun n => alookup n sa) with
    | some v =>
      rw [resolveStep_state hq h1 h2 hc hr hs hb]
      rcases Option.bind_eq_some.1 hb with ⟨n, hn, _⟩
      exact Protect.cache_cons
        (fun hpk => (Wf.disjoint_pr hwf hpk).2 (findBinding_some_mem hn))
    | none =>
    cases hp : findProducer reg k with
    | none =>
      rw [resolveStep_unres hq h1 h2 hc hr hs hb hp]; exact Protect.refl reg stack st
    | some P =>
    by_cases hstk : k ∈ stack
    · rw [resolveStep_cyclic hq h1 h2 hc hr hs hb hp hstk]
      exact Protect.refl reg stack st
    cases ha : P.inputs.any (fun q' => q'.ty.isNone) with
    | true =>
      rw [resolveStep_inputNoAnn hq h1 h2 hc hr hs hb hp hstk ha]
      exact Protect.refl reg stack st
    | false =>
    rw [resolveStep_producer hq h1 h2 hc hr hs hb hp hstk ha]
    have hL := resolveList_protect_of hrec P.inputs (q.name, k) (k :: stack) st
    have hsubstack : ∀ k', k' ∈ stack → k' ∈ k :: stack :=
      fun k' hk' => List.mem_cons_of_mem _ hk'
    cases hLr : resolveList recur (q.name, k) P.inputs (k :: stack) st with
    | error e =>
      rw [hLr] at hL
      simpa using hL.weaken hsubstack
    | ok y =>
      obtain ⟨vis, st1⟩ := y
      rw [hLr] at hL
      show Protect reg stack st (stOut (invokeProducer P k vis st1))
      by_cases hil : (P.singleton && vis.any (fun x => x.2 == Scope.call)) = true
      · rw [invokeProducer_illegal hil]
        simpa using hL.weaken hsubstack
      have hil' : (P.singleton && vis.any (fun x => x.2 == Scope.call)) = false :=
        Bool.not_eq_true _ ▸ eq_false_of_ne_true hil
      by_cases hasy : P.isAsync = true
      · rw [invokeProducer_async hil' hasy]
        simpa using hL.weaken hsubstack
      have hasy' : P.isAsync = false := eq_false_of_ne_true hasy
      have hkstack := hL.at_stack k (List.mem_cons_self k stack)
      cases hsing : P.singleton with
      | true =>
        have hcall : vis.any (fun x => x.2 == Scope.call) = false := by
          rw [hsing] at hil'; simpa using hil'
        rw [invokeProducer_single hsing hcall hasy']
        refine ⟨?_, ?_, ?_⟩
        · intro k' v' hv'
          have hk'k : k' ≠ k := by
            intro he; subst he; rw [hs] at hv'; exact Option.noConfusion hv'
          simp only [stOut]
          rw [alookup_cons_ne _ _ hk'k]
          exact hL.sub k' v' hv'
        · simp only [stOut]
          rw [callCount_append_prod]
          exact hL.calls
        · intro k0 hk0
          have hP0 := hL.at_stack k0 (hsubstack k0 hk0)
          have hk0k : k0 ≠ k := fun he => hstk (he ▸ hk0)
          refine ⟨?_, ?_, ?_⟩
          · simp only [stOut]
            rw [alookup_cons_ne _ _ hk0k]
            exact hP0.1
          · simp only [stOut]
            rw [prodCount_append_prod (fun he => hk0k he.symm)]
            exact hP0.2.1
          · intro hpk
            simp only [stOut]
            exact hP0.2.2 hpk
      | false =>
        rw [invokeProducer_callScoped hsing hasy']
        refine ⟨?_, ?_, ?_⟩
        · intro k' v' hv'
          simp only [stOut]
          exact hL.sub k' v' hv'
        · simp only [stOut]
          rw [callCount_append_prod]
          exact hL.calls
        · intro k0 hk0
          have hP0 := hL.at_stack k0 (hsubstack k0 hk0)
          have hk0k : k0 ≠ k := fun he => hstk (he ▸ hk0)
          refine ⟨hP0.1, ?_, ?_⟩
          · simp only [stOut]
            rw [prodCount_append_prod (fun he => hk0k he.symm)]
            exact hP0.2.1
          · intro hpk
            simp only [stOut]
            rw [alookup_cons_ne _ _ hk0k]
            exact hP0.2.2 hpk

/-- The invariant holds across the full fuelled resolver. -/
theorem resolveParam_protect {reg : Registry} (hwf : reg.Wf)
    (sa : List (String × Value)) :
    ∀ (fuel : Nat) (parent : String × TypeKey) (q : Param)
      (stack : List TypeKey) (st : RunSt),
      Protect reg stack st (stOut (resolveParam reg sa fuel parent q stack st)) := by
  intro fuel
  induction fuel with
  | zero =>
    intro parent q stack st
    exact Protect.refl reg stack st
  | succ n ih =>
    intro parent q stack st
    exact resolveStep_protect hwf ih parent q stack st

/-- Unfolding equation for the fuelled resolver. -/
theorem resolveParam_succ (reg : Registry) (sa : List (String × Value))
    (fuel : Nat) (parent : String × TypeKey) (q : Param)
    (stack : List TypeKey) (st : RunSt) :
    resolveParam reg sa (fuel + 1) parent q stack st =
      resolveStep reg sa (resolveParam reg sa fuel) parent q stack st := rfl

/-! Store preservation lifted to the executor and to `run`. -/

theorem resolveArgs_protect {reg : Registry} (hwf : reg.Wf)
    (sa : List (String × Value)) (fuel : Nat) :
    ∀ (qs : List Param) (st : RunSt),
      Protect reg [] st (stOut (resolveArgs reg sa fuel qs st)) := by
  intro qs
  induction qs with
  | nil => intro st; exact Protect.refl reg [] st
  | cons q rest ih =>
    intro st
    have hA := resolveParam_protect hwf sa fuel (q.name, topKey q) q [] st
    cases h1 : resolveTop reg sa fuel q st with
    | error e =>
      rw [resolveTop] at h1
      rw [h1] at hA
      simpa [resolveArgs, resolveTop, h1] using hA
    | ok x =>
      obtain ⟨⟨v, sc⟩, st1⟩ := x
      rw [resolveTop] at h1
      rw [h1] at hA
      have hB := ih st1
      cases h2 : resolveArgs reg sa fuel rest st1 with
      | error e =>
        rw [h2] at hB
        simpa [resolveArgs, resolveTop, h1, h2] using hA.trans hB
      | ok y =>
        obtain ⟨vs, st2⟩ := y
        rw [h2] at hB
        simpa [resolveArgs, resolveTop, h1, h2] using hA.trans hB

theorem execCallable_sub {reg : Registry} (hwf : reg.Wf)
    (sa : List (String × Value)) (fuel idx : Nat) (f : Callable) {st : RunSt}
    {k : TypeKey} {v : Value} (hv : alookup k st.store = some v) :
    alookup k (stOut (execCallable reg sa fuel idx f st)).store = some v := by
  have hA := resolveArgs_protect hwf sa fuel f.params st
  cases h1 : resolveArgs reg sa fuel f.params st with
  | error e =>
    rw [h1] at hA
    simpa [execCallable, h1] using hA.sub k v hv
  | ok x =>
    obtain ⟨args, st1⟩ := x
    rw [h1] at hA
    have hs1 : alookup k st1.store = some v := hA.sub k v hv
    cases hasy : f.isAsync with
    | true => simpa [execCallable, h1, hasy] using hs1
    | false =>
      cases ho : f.output with
      | none => simpa [execCallable, h1, hasy, ho] using hs1
      | some k0 => simpa [execCallable, h1, hasy, ho] using hs1

theorem execPipeline_sub {reg : Registry} (hwf : reg.Wf)
    (sa : List (String × Value)) (fuel : Nat) :
    ∀ (fs : List Callable) (idx : Nat) (st : RunSt) {k : TypeKey} {v : Value},
      alookup k st.store = some v →
      alookup k (stOut (execPipeline reg sa fuel idx fs st)).store = some v := by
  intro fs
  induction fs with
  | nil => intro idx st k v hv; simpa [execPipeline] using hv
  | cons f rest ih =>
    intro idx st k v hv
    have h1 := execCallable_sub hwf sa fuel idx f hv
    cases hc : execCallable reg sa fuel idx f st with
    | error e =>
      rw [hc] at h1
      simpa [execPipeline, hc] using h1
    | ok x =>
      obtain ⟨w, st1⟩ := x
      rw [hc] at h1
      simpa [execPipeline, hc] using ih (idx + 1) st1 h1

/-- The registry is never mutated by a run. -/
theorem run_reg (inj : Injector) (fs : List Callable)
    (sa : List (String × Value)) : ((inj.run fs sa).inj).reg = inj.reg := by
  unfold Injector.run
  cases h : execPipeline inj.reg sa (defaultFuel inj.reg) 0 fs (initRunSt inj) with
  | ok x => obtain ⟨v, st'⟩ := x; rfl
  | error e => obtain ⟨e1, st'⟩ := e; rfl

/-- A singleton-store entry survives any run, successful or failed,
unchanged. -/
theorem run_store_mono {inj : Injector} (hwf : inj.reg.Wf)
    (fs : List Callable) (sa : List (String × Value)) {k : TypeKey} {v : Value}
    (hv : alookup k inj.store = some v) :
    alookup k ((inj.run fs sa).inj).store = some v := by
  have h := execPipeline_sub hwf sa (defaultFuel inj.reg) fs 0 (initRunSt inj) hv
  unfold Injector.run
  cases hc : execPipeline inj.reg sa (defaultFuel inj.reg) 0 fs (initRunSt inj) with
  | ok x => obtain ⟨w, st'⟩ := x; rw [hc] at h; simpa using h
  | error e => obtain ⟨e1, st'⟩ := e; rw [hc] at h; simpa using h

/-- Decomposition of a run of a single one-parameter pass-through
callable into the resolution of its parameter. -/
theorem run_reader_eq (reg : Registry) (store : List (TypeKey × Value))
    (cnt : Nat) (sa : List (String × Value)) (n : String) (k : TypeKey) :
    Injector.run ⟨reg, store, cnt⟩ [readerNamed n k] sa =
      match resolveParam reg sa (defaultFuel reg) (n, k) ⟨n, some k⟩ []
          ⟨[], initialSentinel, store, cnt, []⟩ with
      | .error (e, st') => ⟨.error e, ⟨reg, st'.store, st'.counter⟩, st'.log⟩
      | .ok ((v, _), st') => ⟨.ok v, ⟨reg, st'.store, st'.counter⟩,
          st'.log ++ [LogEntry.callableInvoked 0]⟩ := by
  cases h : resolveParam reg sa (defaultFuel reg) (n, k) ⟨n, some k⟩ []
      ⟨[], initialSentinel, store, cnt, []⟩ with
  | error e =>
    obtain ⟨e1, st'⟩ := e
    simp [Injector.run, execPipeline, execCallable, resolveArgs, resolveTop,
      readerNamed, topKey, initRunSt, h]
  | ok x =>
    obtain ⟨⟨v, sc⟩, st'⟩ := x
    simp [Injector.run, execPipeline, execCallable, resolveArgs, resolveTop,
      readerNamed, topKey, initRunSt, h]

theorem prodCount_append_self {k : TypeKey} {l : List LogEntry} {c : Nat} :
    prodCount k (l ++ [LogEntry.producerInvoked k c]) = prodCount k l + 1 := by
  simp [prodCount, List.countP_append, List.countP_cons]

/-- Under cache, resolved and binding misses, a store hit returns the
stored value unchanged. -/
theorem resolveParam_store_hit {reg : Registry} {sa : List (String × Value)}
    {k : TypeKey} {n : String} {parent : String × TypeKey}
    {stack : List TypeKey} {st : RunSt} {fuel : Nat}
    (h1 : k ≠ TypeKey.returnValue) (h2 : k ≠ TypeKey.parameterInfo)
    (hc : alookup k st.cache = none) (hres : alookup k reg.resolved = none)
    {v : Value} (hv : alookup k st.store = some v) :
    resolveParam reg sa (fuel + 1) parent ⟨n, some k⟩ stack st =
      .ok ((v, Scope.global), st) := by
  rw [resolveParam_succ, resolveStep_stored rfl h1 h2 hc hres hv]

/-- A run of a reader over a key whose singleton value is already stored
returns exactly the stored value and leaves the injector unchanged. -/
theorem run_reader_hit {reg : Registry} (hwf : reg.Wf) {k : TypeKey}
    {P : Producer} (hp : findProducer reg k = some P)
    {store : List (TypeKey × Value)} {v : Value} (hv : alookup k store = some v)
    (cnt : Nat) (sa : List (String × Value)) (n : String) :
    Injector.run ⟨reg, store, cnt⟩ [readerNamed n k] sa =
      ⟨.ok v, ⟨reg, store, cnt⟩, [LogEntry.callableInvoked 0]⟩ := by
  obtain ⟨h1, h2, hres, hbind⟩ := wf_producer_facts hwf hp
  have hc0 : alookup k (⟨[], initialSentinel, store, cnt, []⟩ : RunSt).cache = none := rfl
  rw [run_reader_eq,
    show defaultFuel reg = reg.components.length + 1 from rfl,
    resolveParam_store_hit h1 h2 hc0 hres hv]
  rfl

/-- A successful run of a reader over a singleton-produced key leaves
that key bound to the returned value in the singleton store. -/
theorem run_reader_single_store {reg : Registry} (hwf : reg.Wf) {k : TypeKey}
    {P : Producer} (hp : findProducer reg k = some P)
    (hsing : P.singleton = true) {store : List (TypeKey × Value)} {cnt : Nat}
    {sa : List (String × Value)} {n : String} {v : Value}
    (hrun : (Injector.run ⟨reg, store, cnt⟩ [readerNamed n k] sa).result = .ok v) :
    alookup k ((Injector.run ⟨reg, store, cnt⟩ [readerNamed n k] sa).inj).store
      = some v := by
  obtain ⟨h1, h2, hres, hbind⟩ := wf_producer_facts hwf hp
  have hc0 : alookup k (⟨[], initialSentinel, store, cnt, []⟩ : RunSt).cache = none := rfl
  have hq0 : (⟨n, some k⟩ : Param).ty = some k := rfl
  rw [run_reader_eq] at hrun ⊢
  rw [show defaultFuel reg = reg.components.length + 1 from rfl] at hrun ⊢
  cases hv : alookup k store with
  | some v0 =>
    rw [resolveParam_store_hit h1 h2 hc0 hres hv] at hrun ⊢
    simp only [Except.ok.injEq] at hrun
    simpa using hrun ▸ hv
  | none =>
    have hb' : (findBinding reg k).bind (fun n' => alookup n' sa) = none := by
      rw [hbind]; rfl
    have hstk : k ∉ ([] : List TypeKey) := by simp
    cases ha : P.inputs.any (fun q' => q'.ty.isNone) with
    | true =>
      rw [resolveParam_succ,
        resolveStep_inputNoAnn hq0 h1 h2 hc0 hres hv hb' hp hstk ha] at hrun
      exact absurd hrun (by simp)
    | false =>
      rw [resolveParam_succ,
        resolveStep_producer hq0 h1 h2 hc0 hres hv hb' hp hstk ha] at hrun ⊢
      dsimp only at hrun ⊢
      cases hLr : resolveList (resolveParam reg sa reg.components.length)
          (n, k) P.inputs (k :: []) ⟨[], initialSentinel, store, cnt, []⟩ with
      | error e =>
        obtain ⟨e1, st'⟩ := e
        rw [hLr] at hrun
        simp at hrun
      | ok y =>
        obtain ⟨vis, st1⟩ := y
        rw [hLr] at hrun
        dsimp only at hrun ⊢
        by_cases hil : (P.singleton && vis.any (fun x => x.2 == Scope.call)) = true
        · rw [invokeProducer_illegal hil] at hrun
          exact absurd hrun (by simp)
        have hil' : (P.singleton && vis.any (fun x => x.2 == Scope.call)) = false :=
          eq_false_of_ne_true hil
        by_cases hasy : P.isAsync = true
        · rw [invokeProducer_async hil' hasy] at hrun
          exact absurd hrun (by simp)
        have hasy' : P.isAsync = false := eq_false_of_ne_true hasy
        have hcall : vis.any (fun x => x.2 == Scope.call) = false := by
          rw [hsing] at hil'; simpa using hil'
        rw [invokeProducer_single hsing hcall hasy'] at hrun ⊢
        simp only [Except.ok.injEq] at hrun
        simpa using hrun ▸ alookup_cons_self k _ st1.store

/-- Decomposition of a run of the two-parameter reader into the two
resolutions of its parameters. -/
theorem run_reader2_eq (reg : Registry) (store : List (TypeKey × Value))
    (cnt : Nat) (sa : List (String × Value)) (k : TypeKey) :
    Injector.run ⟨reg, store, cnt⟩ [reader2 k] sa =
      match resolveParam reg sa (defaultFuel reg) (("a"), k) ⟨("a"), some k⟩ []
          ⟨[], initialSentinel, store, cnt, []⟩ with
      | .error (e, st') => ⟨.error e, ⟨reg, st'.store, st'.counter⟩, st'.log⟩
      | .ok ((v1, _), st1) =>
        match resolveParam reg sa (defaultFuel reg) (("b"), k) ⟨("b"), some k⟩ [] st1 with
        | .error (e, st') => ⟨.error e, ⟨reg, st'.store, st'.counter⟩, st'.log⟩
        | .ok ((v2, _), st2) => ⟨.ok (Value.pair v1 v2), ⟨reg, st2.store, st2.counter⟩,
            st2.log ++ [LogEntry.callableInvoked 0]⟩ := by
  cases h : resolveParam reg sa (defaultFuel reg) (("a"), k) ⟨("a"), some k⟩ []
      ⟨[], initialSentinel, store, cnt, []⟩ with
  | error e =>
    obtain ⟨e1, st'⟩ := e
    simp [Injector.run, execPipeline, execCallable, resolveArgs, resolveTop,
      reader2, topKey, initRunSt, h]
  | ok x =>
    obtain ⟨⟨v1, sc1⟩, st1⟩ := x
    cases h2 : resolveParam reg sa (defaultFuel reg) (("b"), k) ⟨("b"), some k⟩ [] st1 with
    | error e =>
      obtain ⟨e1, st'⟩ := e
      simp [Injector.run, execPipeline, execCallable, resolveArgs, resolveTop,
        reader2, topKey, initRunSt, h, h2]
    | ok y =>
      obtain ⟨⟨v2, sc2⟩, st2⟩ := y
      simp [Injector.run, execPipeline, execCallable, resolveArgs, resolveTop,
        reader2, topKey, initRunSt, h, h2]

/-- Executing a concatenated pipeline is executing the first part, then
the second from the reached state. -/
theorem execPipeline_append (reg : Registry) (sa : List (String × Value))
    (fuel : Nat) :
    ∀ (xs : List Callable) (idx : Nat) (ys : List Callable) (st : RunSt),
      execPipeline reg sa fuel idx (xs ++ ys) st =
        match execPipeline reg sa fuel idx xs st with
        | .error e => .error e
        | .ok (_, st') => execPipeline reg sa fuel (idx + xs.length) ys st' := by
  intro xs
  induction xs with
  | nil => intro idx ys st; simp [execPipeline]
  | cons f rest ih =>
    intro idx ys st
    show execPipeline reg sa fuel idx (f :: (rest ++ ys)) st = _
    rw [execPipeline]
    cases hc : execCallable reg sa fuel idx f st with
    | error e => simp [execPipeline, hc]
    | ok x =>
      obtain ⟨w, st1⟩ := x
      dsimp only
      rw [ih (idx + 1) ys st1]
      have hl : idx + 1 + rest.length = idx + (rest.length + 1) := by omega
      simp [execPipeline, hc, hl]

/-- A successful pipeline leaves its result in the previous-result
holder. -/
theorem execPipeline_prev (reg : Registry) (sa : List (String × Value))
    (fuel : Nat) :
    ∀ (fs : List Callable) (idx : Nat) (st : RunSt) (v : Value) (out : RunSt),
      execPipeline reg sa fuel idx fs st = .ok (v, out) → out.prev = v := by
  intro fs
  induction fs with
  | nil =>
    intro idx st v out h
    simp [execPipeline] at h
    obtain ⟨h1, h2⟩ := h
    rw [← h2, ← h1]
  | cons f rest ih =>
    intro idx st v out h
    rw [execPipeline] at h
    cases hc : execCallable reg sa fuel idx f st with
    | error e => rw [hc] at h; exact absurd h (by simp)
    | ok x =>
      obtain ⟨w, st1⟩ := x
      rw [hc] at h
      exact ih (idx + 1) st1 v out h

/-- Executing just the probe returns the current previous-result. -/
theorem execPipeline_probe (reg : Registry) (sa : List (String × Value))
    (m idx : Nat) (st : RunSt) :
    execPipeline reg sa (m + 1) idx [probe] st =
      .ok (st.prev, { st with log := st.log ++ [LogEntry.callableInvoked idx] }) := by
  have hstep : resolveParam reg sa (m + 1) (("ret"), TypeKey.returnValue)
      ⟨("ret"), some TypeKey.returnValue⟩ [] st = .ok ((st.prev, Scope.call), st) := by
    rw [resolveParam_succ, resolveStep_retVal rfl]
  simp [execPipeline, execCallable, resolveArgs, resolveTop, probe,
    readerNamed, topKey, hstep]

/-- Resolving the reserved ParameterInfo marker yields the descriptor of
the demanding parameter and leaves the state unchanged. -/
theorem resolveParam_pinfo (reg : Registry) (sa : List (String × Value))
    (m : Nat) (parent : String × TypeKey) (qn : String)
    (stack : List TypeKey) (st : RunSt) :
    resolveParam reg sa (m + 1) parent ⟨qn, some TypeKey.parameterInfo⟩ stack st =
      .ok ((Value.paramInfo parent.1 parent.2, Scope.call), st) := by
  rw [resolveParam_succ, resolveStep_pinfo rfl]

/-- Splitting argument resolution over a parameter-list concatenation. -/
theorem resolveArgs_append (reg : Registry) (sa : List (String × Value))
    (fuel : Nat) :
    ∀ (qs rest : List Param) (st : RunSt),
      resolveArgs reg sa fuel (qs ++ rest) st =
        match resolveArgs reg sa fuel qs st with
        | .error e => .error e
        | .ok (vs, st1) =>
          match resolveArgs reg sa fuel rest st1 with
          | .error e => .error e
          | .ok (vs2, st2) => .ok (vs ++ vs2, st2) := by
  intro qs
  induction qs with
  | nil =>
    intro rest st
    simp [resolveArgs]
    cases h : resolveArgs reg sa fuel rest st with
    | error e => simp
    | ok x => obtain ⟨vs, st2⟩ := x; simp
  | cons q qs' ih =>
    intro rest st
    show resolveArgs reg sa fuel (q :: (qs' ++ rest)) st = _
    rw [resolveArgs]
    cases h1 : resolveTop reg sa fuel q st with
    | error e => simp [resolveArgs, h1]
    | ok x =>
      obtain ⟨⟨v, sc⟩, st1⟩ := x
      dsimp only
      rw [ih rest st1]
      cases h2 : resolveArgs reg sa fuel qs' st1 with
      | error e => simp [resolveArgs, h1, h2]
      | ok y =>
        obtain ⟨vs, st2⟩ := y
        cases h3 : resolveArgs reg sa fuel rest st2 with
        | error e => simp [resolveArgs, h1, h2, h3]
        | ok z => obtain ⟨vs3, st3⟩ := z; simp [resolveArgs, h1, h2, h3]

/-- C3: for every pipeline, a parameter of the reserved ReturnValue type
in callable i (i > 0) resolves to exactly the return value of callable
i-1 — appending a ReturnValue probe to any successful pipeline returns
that pipeline's final result, because the previous-result holder is set
to every callable's return value whether or not it declares an output —
and in callable 0 it resolves to the initial sentinel. -/
theorem c3_return_value_threading :
    (∀ (reg : Registry) (sa : List (String × Value)) (m idx : Nat)
       (fs : List Callable) (st : RunSt) (v : Value) (out : RunSt),
       execPipeline reg sa (m + 1) idx fs st = .ok (v, out) →
       ∃ out2, execPipeline reg sa (m + 1) idx (fs ++ [probe]) st = .ok (v, out2))
    ∧ (∀ (inj : Injector) (sa : List (String × Value)),
        (inj.run [probe] sa).result = .ok initialSentinel)
    ∧ (∀ (reg : Registry) (sa : List (String × Value)) (fuel idx : Nat)
         (f : Callable) (st : RunSt) (v : Value) (st' : RunSt),
         execCallable reg sa fuel idx f st = .ok (v, st') → st'.prev = v) := by
  refine ⟨?_, ?_, ?_⟩
  · intro reg sa m idx fs st v out h
    have hp := execPipeline_prev reg sa (m + 1) fs idx st v out h
    rw [execPipeline_append, h]
    refine ⟨{ out with log := out.log ++ [LogEntry.callableInvoked (idx + fs.length)] }, ?_⟩
    dsimp only
    rw [execPipeline_probe, hp]
  · intro inj sa
    obtain ⟨reg, store, cnt⟩ := inj
    have hstep : resolveParam reg sa (reg.components.length + 1)
        (("ret"), TypeKey.returnValue) ⟨("ret"), some TypeKey.returnValue⟩ []
        ⟨[], initialSentinel, store, cnt, []⟩ =
        .ok ((initialSentinel, Scope.call), ⟨[], initialSentinel, store, cnt, []⟩) := by
      rw [resolveParam_succ, resolveStep_retVal rfl]
    rw [show probe = readerNamed ("ret") TypeKey.returnValue from rfl, run_reader_eq,
      show defaultFuel reg = reg.components.length + 1 from rfl, hstep]
  · intro reg sa fuel idx f st v st' h
    rw [execCallable] at h
    cases h1 : resolveArgs reg sa fuel f.params st with
    | error e => rw [h1] at h; exact absurd h (by simp)
    | ok x =>
      obtain ⟨args, st1⟩ := x
      rw [h1] at h
      by_cases hasy : f.isAsync = true
      · simp [hasy] at h
      · have hasy' : f.isAsync = false := eq_false_of_ne_true hasy
        cases ho : f.output with
        | none =>
          simp only [hasy', ho, Bool.false_eq_true, if_false, Except.ok.injEq,
            Prod.mk.injEq] at h
          obtain ⟨hv, hst⟩ := h
          rw [← hst]
          exact hv
        | some k0 =>
          simp only [hasy', ho, Bool.false_eq_true, if_false, Except.ok.injEq,
            Prod.mk.injEq] at h
          obtain ⟨hv, hst⟩ := h
          rw [← hst]
          exact hv

theorem c3_return_value_threading_witness :
    (∃ out2, execPipeline testReg testSA (5 + 1) 0 ([reader rvKey] ++ [probe])
        (initRunSt testInj) = .ok (Value.constructed 2, out2))
    ∧ (testInj.run [probe] testSA).result = .ok initialSentinel :=
  ⟨c3_return_value_threading.1 testReg testSA 5 0 [reader rvKey] (initRunSt testInj)
      (Value.constructed 2) _ rfl,
   c3_return_value_threading.2.1 testInj testSA⟩

/-- C7: a demanded TypeKey with no Producer, no ResolvedValue and no
StateBinding fails the resolution, and the whole run, with the
Unresolvable error, returning no partial result. -/
theorem c7_unresolvable_error :
    (∀ (reg : Registry) (sa : List (String × Value)) (m : Nat)
       (parent : String × TypeKey) (n : String) (k : TypeKey)
       (stack : List TypeKey) (st : RunSt),
       k ≠ TypeKey.returnValue → k ≠ TypeKey.parameterInfo →
       alookup k st.cache = none → alookup k reg.resolved = none →
       alookup k st.store = none →
       (findBinding reg k).bind (fun nm => alookup nm sa) = none →
       findProducer reg k = none →
       resolveParam reg sa (m + 1) parent ⟨n, some k⟩ stack st =
         .error (.unresolvable, st))
    ∧ (∀ (reg : Registry) (k : TypeKey), k ∉ reg.allKeys →
        k ≠ TypeKey.returnValue → k ≠ TypeKey.parameterInfo →
        ∀ (store : List (TypeKey × Value)) (cnt : Nat)
          (sa : List (String × Value)) (n : String),
          alookup k store = none →
          (Injector.run ⟨reg, store, cnt⟩ [readerNamed n k] sa).result =
            .error .unresolvable) := by
  refine ⟨?_, ?_⟩
  · intro reg sa m parent n k stack st h1 h2 hc hr hs hb hp
    rw [resolveParam_succ, resolveStep_unres rfl h1 h2 hc hr hs hb hp]
  · intro reg k hk h1 h2 store cnt sa n hv
    have hres : alookup k reg.resolved = none :=
      alookup_eq_none (fun hm => hk (mem_allKeys_of_resolved hm))
    have hbind : findBinding reg k = none :=
      findBinding_eq_none (fun hm => hk (mem_allKeys_of_binding hm))
    have hp : findProducer reg k = none :=
      findProducer_eq_none (fun hm => hk (mem_allKeys_of_prod hm))
    have hb' : (findBinding reg k).bind (fun nm => alookup nm sa) = none := by
      rw [hbind]; rfl
    have hc0 : alookup k (⟨[], initialSentinel, store, cnt, []⟩ : RunSt).cache = none := rfl
    rw [run_reader_eq, show defaultFuel reg = reg.components.length + 1 from rfl,
      resolveParam_succ, resolveStep_unres rfl h1 h2 hc0 hres hv hb' hp]

theorem c7_unresolvable_error_witness :
    (testInj.run [readerNamed ("x") (TypeKey.key 99)] testSA).result =
      .error .unresolvable :=
  c7_unresolvable_error.2 testReg (TypeKey.key 99) (by decide) (by decide)
    (by decide) [] 0 testSA ("x") rfl

/-- C9: a producer input of the reserved ParameterInfo type resolves to
the descriptor — name and declared type — of the parameter the producer
is invoked to fill, not of the producer's own parameter; end to end, a
producer can use it to extract the field named after the top-level
parameter from the per-call state. -/
theorem c9_parameter_info :
    (∀ (reg : Registry) (sa : List (String × Value)) (m : Nat)
       (parent : String × TypeKey) (qn : String) (stack : List TypeKey) (st : RunSt),
       resolveParam reg sa (m + 1) parent ⟨qn, some TypeKey.parameterInfo⟩ stack st =
         .ok ((Value.paramInfo parent.1 parent.2, Scope.call), st))
    ∧ (∀ (reg : Registry), reg.Wf → ∀ (k : TypeKey) (P : Producer),
        findProducer reg k = some P → P.singleton = false → P.isAsync = false →
        ∀ (qn : String), P.inputs = [⟨qn, some TypeKey.parameterInfo⟩] →
        ∀ (store : List (TypeKey × Value)) (cnt : Nat)
          (sa : List (String × Value)) (pname : String),
          alookup k store = none →
          (Injector.run ⟨reg, store, cnt⟩ [readerNamed pname k] sa).result =
            .ok (P.impl cnt [Value.paramInfo pname k]))
    ∧ (∀ (pname qn : String) (k k' : TypeKey), pname ≠ qn →
        Value.paramInfo pname k ≠ Value.paramInfo qn k')
    ∧ (testInj.run [getKeyCallable] testSA).result = .ok (Value.str ("value")) := by
  refine ⟨?_, ?_, ?_, ?_⟩
  · intro reg sa m parent qn stack st
    exact resolveParam_pinfo reg sa m parent qn stack st
  · intro reg hwf k P hp hsing hasy qn hinp store cnt sa pname hv
    obtain ⟨h1, h2, hres, hbind⟩ := wf_producer_facts hwf hp
    have hb' : (findBinding reg k).bind (fun nm => alookup nm sa) = none := by
      rw [hbind]; rfl
    have hc0 : alookup k (⟨[], initialSentinel, store, cnt, []⟩ : RunSt).cache = none := rfl
    have hstk : k ∉ ([] : List TypeKey) := by simp
    have ha : P.inputs.any (fun q' => q'.ty.isNone) = false := by rw [hinp]; rfl
    cases hcomp : reg.components with
    | nil =>
      rw [findProducer, hcomp] at hp
      exact absurd hp (by simp)
    | cons c cs =>
      have hlen : reg.components.length = cs.length + 1 := by rw [hcomp]; rfl
      have hplist : resolveList (resolveParam reg sa (cs.length + 1)) (pname, k)
          P.inputs (k :: []) ⟨[], initialSentinel, store, cnt, []⟩ =
          .ok ([(Value.paramInfo pname k, Scope.call)],
            ⟨[], initialSentinel, store, cnt, []⟩) := by
        rw [hinp, resolveList, resolveParam_pinfo]
        rfl
      rw [run_reader_eq, show defaultFuel reg = reg.components.length + 1 from rfl,
        resolveParam_succ, resolveStep_producer rfl h1 h2 hc0 hres hv hb' hp hstk ha]
      dsimp only
      rw [hlen, hplist]
      dsimp only
      rw [invokeProducer_callScoped hsing hasy]
      rfl
  · intro pname qn k k' hne h
    simp only [Value.paramInfo.injEq] at h
    exact hne h.1
  · rfl

theorem c9_parameter_info_witness :
    (piInj.run [readerNamed ("myparam") piKey] []).result =
      .ok (piComp.impl 0 [Value.paramInfo ("myparam") piKey]) :=
  c9_parameter_info.2.1 piReg (by decide) piKey piComp rfl rfl rfl ("p") rfl
    [] 0 [] ("myparam") rfl

/-- C1: for a singleton producer's TypeKey, a successful run of a reader
stores exactly the returned value; a stored value is returned verbatim by
any later reader run; an existing store entry survives every run
unchanged (written at most once, never overwritten or evicted); hence the
values of any two reader runs on the same injector are identical. -/
theorem c1_singleton_reference_identity {reg : Registry} {k : TypeKey}
    {P : Producer} (hwf : reg.Wf) (hp : findProducer reg k = some P)
    (hsing : P.singleton = true) :
    (∀ (store : List (TypeKey × Value)) (cnt : Nat) (sa : List (String × Value))
       (n : String) (v : Value),
       (Injector.run ⟨reg, store, cnt⟩ [readerNamed n k] sa).result = .ok v →
       alookup k ((Injector.run ⟨reg, store, cnt⟩ [readerNamed n k] sa).inj).store
         = some v)
    ∧ (∀ (store : List (TypeKey × Value)) (cnt : Nat) (sa : List (String × Value))
        (n : String) (v : Value), alookup k store = some v →
        (Injector.run ⟨reg, store, cnt⟩ [readerNamed n k] sa).result = .ok v)
    ∧ (∀ (inj : Injector), inj.reg = reg → ∀ (fs : List Callable)
        (sa : List (String × Value)) (v : Value),
        alookup k inj.store = some v → alookup k ((inj.run fs sa).inj).store = some v)
    ∧ (∀ (store : List (TypeKey × Value)) (cnt : Nat)
        (sa1 sa2 : List (String × Value)) (n : String) (v1 v2 : Value),
        (Injector.run ⟨reg, store, cnt⟩ [readerNamed n k] sa1).result = .ok v1 →
        ((Injector.run ⟨reg, store, cnt⟩ [readerNamed n k] sa1).inj.run
            [readerNamed n k] sa2).result = .ok v2 →
        v2 = v1) := by
  refine ⟨fun store cnt sa n v h => run_reader_single_store hwf hp hsing h, ?_, ?_, ?_⟩
  · intro store cnt sa n v hv
    rw [run_reader_hit hwf hp hv cnt sa n]
  · intro inj hr fs sa v hv
    exact run_store_mono (by rw [hr]; exact hwf) fs sa hv
  · intro store cnt sa1 sa2 n v1 v2 h1 h2
    have hstore1 := run_reader_single_store hwf hp hsing h1
    rcases hinj : (Injector.run ⟨reg, store, cnt⟩ [readerNamed n k] sa1).inj
      with ⟨reg1, store1, cnt1⟩
    have hreg1 : reg1 = reg := by
      have hr := run_reg ⟨reg, store, cnt⟩ [readerNamed n k] sa1
      rw [hinj] at hr
      simpa using hr
    rw [hinj] at hstore1 h2
    subst hreg1
    rw [run_reader_hit hwf hp hstore1 cnt1 sa2 n] at h2
    simpa using h2.symm

theorem c1_singleton_reference_identity_witness :
    alookup genKey ((testInj.run [readerNamed ("x") genKey] testSA).inj).store
      = some (Value.constructed 1)
    ∧ (Injector.run ⟨testReg, [(genKey, Value.constructed 1),
        (anotherKey, Value.constructed 0)], 2⟩
        [readerNamed ("x") genKey] testSA).result = .ok (Value.constructed 1) :=
  ⟨(c1_singleton_reference_identity (by decide)
      (rfl : findProducer testReg genKey = some genComp) rfl).1 [] 0 testSA ("x")
      (Value.constructed 1) rfl,
   (c1_singleton_reference_identity (by decide)
      (rfl : findProducer testReg genKey = some genComp) rfl).2.1
      [(genKey, Value.constructed 1), (anotherKey, Value.constructed 0)] 2 testSA
      ("x") (Value.constructed 1) rfl⟩

/-- C10: a failed run leaves the injector fully usable — the registry is
untouched, every existing singleton-store entry survives any run
(successful or failed) unchanged, a reader run after any run still
returns a stored singleton value identically, and in the concrete test
mirror the bad-singleton failure is followed by two successful runs that
return the identical generator instance. -/
theorem c10_failed_run_keeps_injector_usable :
    (∀ (inj : Injector), inj.reg.Wf → ∀ (fs : List Callable)
       (sa : List (String × Value)) (k : TypeKey) (v : Value),
       alookup k inj.store = some v →
       alookup k ((inj.run fs sa).inj).store = some v)
    ∧ (∀ (inj : Injector) (fs : List Callable) (sa : List (String × Value)),
        ((inj.run fs sa).inj).reg = inj.reg)
    ∧ (∀ (reg : Registry), reg.Wf → ∀ (k : TypeKey) (P : Producer),
        findProducer reg k = some P →
        ∀ (store : List (TypeKey × Value)) (cnt : Nat) (fs : List Callable)
          (sa sa' : List (String × Value)) (v : Value) (n : String),
          alookup k store = some v →
          ((Injector.run ⟨reg, store, cnt⟩ fs sa).inj.run
              [readerNamed n k] sa').result = .ok v)
    ∧ ((testInj.run [reader badKey] testSA).result = .error .illegalSingletonDependency
       ∧ ((testInj.run [reader badKey] testSA).inj.run [reader genKey] testSA).result
           = .ok (Value.constructed 2)
       ∧ (((testInj.run [reader badKey] testSA).inj.run [reader genKey] testSA).inj.run
           [reader genKey] testSA).result = .ok (Value.constructed 2)) := by
  refine ⟨?_, run_reg, ?_, rfl, rfl, rfl⟩
  · intro inj hwf fs sa k v hv
    exact run_store_mono hwf fs sa hv
  · intro reg hwf k P hp store cnt fs sa sa' v n hv
    have h1 : alookup k ((Injector.run ⟨reg, store, cnt⟩ fs sa).inj).store = some v :=
      run_store_mono hwf fs sa hv
    rcases hinj : (Injector.run ⟨reg, store, cnt⟩ fs sa).inj with ⟨reg1, store1, cnt1⟩
    have hreg1 : reg1 = reg := by
      have hr := run_reg ⟨reg, store, cnt⟩ fs sa
      rw [hinj] at hr
      simpa using hr
    rw [hinj] at h1
    subst hreg1
    rw [run_reader_hit hwf hp h1 cnt1 sa' n]

/-- C5: resolving a singleton producer any of whose resolved inputs is
Call-scoped fails the run with IllegalSingletonDependency; the failure
happens before the producer is invoked (no invocation is logged for its
key) and nothing is stored for its TypeKey in the singleton store or the
call-scoped cache. -/
theorem c5_illegal_singleton_dependency :
    ∀ (reg : Registry), reg.Wf → ∀ (k : TypeKey) (P : Producer),
      findProducer reg k = some P → P.singleton = true →
      ∀ (store : List (TypeKey × Value)) (cnt : Nat) (sa : List (String × Value))
        (n : String),
        alookup k store = none →
        P.inputs.any (fun q' => q'.ty.isNone) = false →
        ∀ (vis : List (Value × Scope)) (st1 : RunSt),
          resolveList (resolveParam reg sa reg.components.length) (n, k) P.inputs
            (k :: []) ⟨[], initialSentinel, store, cnt, []⟩ = .ok (vis, st1) →
          vis.any (fun x => x.2 == Scope.call) = true →
          (Injector.run ⟨reg, store, cnt⟩ [readerNamed n k] sa).result =
              .error .illegalSingletonDependency
          ∧ alookup k ((Injector.run ⟨reg, store, cnt⟩
              [readerNamed n k] sa).inj).store = none
          ∧ alookup k st1.cache = none
          ∧ prodCount k (Injector.run ⟨reg, store, cnt⟩
              [readerNamed n k] sa).log = 0 := by
  intro reg hwf k P hp hsing store cnt sa n hv ha vis st1 hLr hcall
  obtain ⟨h1, h2, hres, hbind⟩ := wf_producer_facts hwf hp
  have hb' : (findBinding reg k).bind (fun nm => alookup nm sa) = none := by
    rw [hbind]; rfl
  have hc0 : alookup k (⟨[], initialSentinel, store, cnt, []⟩ : RunSt).cache = none := rfl
  have hstk : k ∉ ([] : List TypeKey) := by simp
  have hil : (P.singleton && vis.any (fun x => x.2 == Scope.call)) = true := by
    rw [hsing, hcall]; rfl
  have hL := resolveList_protect_of
    (fun parent q stack st => resolveParam_protect hwf sa reg.components.length parent q stack st)
    P.inputs (n, k) (k :: []) ⟨[], initialSentinel, store, cnt, []⟩
  rw [hLr] at hL
  have hks := hL.at_stack k (by simp)
  simp only [stOut] at hks
  have hkstore : alookup k st1.store = none := by rw [hks.1]; exact hv
  have hkcache : alookup k st1.cache = none := by
    rw [hks.2.2 (findProducer_some_mem hp)]; rfl
  have hkcount : prodCount k st1.log = 0 := by rw [hks.2.1]; rfl
  rw [run_reader_eq, show defaultFuel reg = reg.components.length + 1 from rfl,
    resolveParam_succ, resolveStep_producer rfl h1 h2 hc0 hres hv hb' hp hstk ha]
  dsimp only
  rw [hLr]
  dsimp only
  rw [invokeProducer_illegal hil]
  exact ⟨rfl, hkstore, hkcache, hkcount⟩

theorem c5_illegal_singleton_dependency_witness :
    (testInj.run [readerNamed ("x") badKey] testSA).result =
        .error .illegalSingletonDependency
    ∧ alookup badKey ((testInj.run [readerNamed ("x") badKey] testSA).inj).store = none
    ∧ prodCount badKey (testInj.run [readerNamed ("x") badKey] testSA).log = 0 := by
  have h := c5_illegal_singleton_dependency testReg (by decide) badKey badComp rfl rfl
    [] 0 testSA ("x") rfl rfl _ _ rfl rfl
  exact ⟨h.1, h.2.1, h.2.2.2⟩

/-- C8: a suspending pipeline callable whose parameters resolve makes the
run fail with UnsupportedCallable without being invoked, and a suspending
producer reached during resolution makes the run fail with
UnsupportedCallable without being invoked. -/
theorem c8_async_rejected :
    (∀ (inj : Injector) (f : Callable), f.isAsync = true →
       ∀ (sa : List (String × Value)) (args : List Value) (st1 : RunSt),
         resolveArgs inj.reg sa (defaultFuel inj.reg) f.params (initRunSt inj) =
           .ok (args, st1) →
         (inj.run [f] sa).result = .error .unsupportedCallable
         ∧ (inj.run [f] sa).log = st1.log
         ∧ (inj.reg.Wf → callCount st1.log = 0))
    ∧ (∀ (reg : Registry), reg.Wf → ∀ (k : TypeKey) (P : Producer),
        findProducer reg k = some P → P.isAsync = true →
        ∀ (store : List (TypeKey × Value)) (cnt : Nat)
          (sa : List (String × Value)) (n : String),
          alookup k store = none →
          P.inputs.any (fun q' => q'.ty.isNone) = false →
          ∀ (vis : List (Value × Scope)) (st1 : RunSt),
            resolveList (resolveParam reg sa reg.components.length) (n, k) P.inputs
              (k :: []) ⟨[], initialSentinel, store, cnt, []⟩ = .ok (vis, st1) →
            (P.singleton && vis.any (fun x => x.2 == Scope.call)) = false →
            (Injector.run ⟨reg, store, cnt⟩ [readerNamed n k] sa).result =
                .error .unsupportedCallable
            ∧ prodCount k (Injector.run ⟨reg, store, cnt⟩
                [readerNamed n k] sa).log = 0) := by
  refine ⟨?_, ?_⟩
  · intro inj f hasy sa args st1 hargs
    have hexec : execPipeline inj.reg sa (defaultFuel inj.reg) 0 [f] (initRunSt inj) =
        .error (.unsupportedCallable, st1) := by
      simp [execPipeline, execCallable, hargs, hasy]
    refine ⟨?_, ?_, fun hwf => ?_⟩
    · simp [Injector.run, hexec]
    · simp [Injector.run, hexec]
    · have hA := resolveArgs_protect hwf sa (defaultFuel inj.reg) f.params (initRunSt inj)
      rw [hargs] at hA
      have hcc := hA.calls
      simpa [initRunSt, callCount] using hcc
  · intro reg hwf k P hp hasy store cnt sa n hv ha vis st1 hLr hil'
    obtain ⟨h1, h2, hres, hbind⟩ := wf_producer_facts hwf hp
    have hb' : (findBinding reg k).bind (fun nm => alookup nm sa) = none := by
      rw [hbind]; rfl
    have hc0 : alookup k (⟨[], initialSentinel, store, cnt, []⟩ : RunSt).cache = none := rfl
    have hstk : k ∉ ([] : List TypeKey) := by simp
    have hL := resolveList_protect_of
      (fun parent q stack st => resolveParam_protect hwf sa reg.components.length parent q stack st)
      P.inputs (n, k) (k :: []) ⟨[], initialSentinel, store, cnt, []⟩
    rw [hLr] at hL
    have hks := hL.at_stack k (by simp)
    simp only [stOut] at hks
    have hkcount : prodCount k st1.log = 0 := by rw [hks.2.1]; rfl
    rw [run_reader_eq, show defaultFuel reg = reg.components.length + 1 from rfl,
      resolveParam_succ, resolveStep_producer rfl h1 h2 hc0 hres hv hb' hp hstk ha]
    dsimp only
    rw [hLr]
    dsimp only
    rw [invokeProducer_async hil' hasy]
    exact ⟨rfl, hkcount⟩

theorem c8_async_rejected_witness :
    (testInj.run [asyncReader svKey] testSA).result = .error .unsupportedCallable
    ∧ (Injector.run ⟨apReg, [], 0⟩ [readerNamed ("x") apKey] []).result =
        .error .unsupportedCallable := by
  have ht1 := c8_async_rejected.1 testInj (asyncReader svKey) rfl testSA _ _ rfl
  have ht2 := c8_async_rejected.2 apReg (by decide) apKey apComp rfl rfl [] 0 []
    ("x") rfl rfl _ _ rfl rfl
  exact ⟨ht1.1, ht2.1⟩

/-- C2 counterexample: with the non-singleton producer for `key 10`, the
run [reader, overrider, reader] computes that type exactly once, yet the
third callable's resolution returns the override value — which embeds the
value the second callable received — and the two resolved values differ,
so the cached value is not reused identically for every further
resolution within the run. -/
theorem c2_counterexample :
    ckComp.singleton = false
    ∧ (ckInj.run [reader ckKey, ckOverrider, reader ckKey] []).result =
        .ok (Value.pair (Value.str ("o")) (Value.constructed 0))
    ∧ prodCount ckKey (ckInj.run [reader ckKey, ckOverrider, reader ckKey] []).log = 1
    ∧ Value.pair (Value.str ("o")) (Value.constructed 0) ≠ Value.constructed 0 :=
  ⟨rfl, rfl, rfl, by decide⟩

/-- C2 (amended): for a non-singleton producer, within one run its type
is computed exactly once and, absent a callable-output override of that
type, the identical cached value is returned for further resolutions in
the same run (both parameters of the two-parameter reader receive the
same value); the produced value never enters the singleton store, and the
next run on the same injector invokes the producer again, computing a
fresh (differently-stamped) value. -/
theorem c2_fresh_per_run_caching :
    (∀ (reg : Registry), reg.Wf → ∀ (k : TypeKey) (P : Producer),
       findProducer reg k = some P → P.singleton = false → P.isAsync = false →
       ∀ (store : List (TypeKey × Value)) (cnt : Nat) (sa : List (String × Value)),
         alookup k store = none →
         P.inputs.any (fun q' => q'.ty.isNone) = false →
         ∀ (vis : List (Value × Scope)) (st1 : RunSt),
           resolveList (resolveParam reg sa reg.components.length) (("a"), k)
             P.inputs (k :: []) ⟨[], initialSentinel, store, cnt, []⟩ = .ok (vis, st1) →
           (∃ a, (Injector.run ⟨reg, store, cnt⟩ [reader2 k] sa).result =
               .ok (Value.pair a a))
           ∧ prodCount k (Injector.run ⟨reg, store, cnt⟩ [reader2 k] sa).log = 1
           ∧ alookup k ((Injector.run ⟨reg, store, cnt⟩ [reader2 k] sa).inj).store = none)
    ∧ ((ckInj.run [reader2 ckKey] []).result =
         .ok (Value.pair (Value.constructed 0) (Value.constructed 0))
       ∧ ((ckInj.run [reader2 ckKey] []).inj.run [reader2 ckKey] []).result =
           .ok (Value.pair (Value.constructed 1) (Value.constructed 1))
       ∧ (Value.constructed 0 : Value) ≠ Value.constructed 1) := by
  refine ⟨?_, rfl, rfl, by decide⟩
  intro reg hwf k P hp hsing hasy store cnt sa hv ha vis st1 hLr
  obtain ⟨h1, h2, hres, hbind⟩ := wf_producer_facts hwf hp
  have hb' : (findBinding reg k).bind (fun nm => alookup nm sa) = none := by
    rw [hbind]; rfl
  have hc0 : alookup k (⟨[], initialSentinel, store, cnt, []⟩ : RunSt).cache = none := rfl
  have hstk : k ∉ ([] : List TypeKey) := by simp
  have hL := resolveList_protect_of
    (fun parent q stack st => resolveParam_protect hwf sa reg.components.length parent q stack st)
    P.inputs (("a"), k) (k :: []) ⟨[], initialSentinel, store, cnt, []⟩
  rw [hLr] at hL
  have hks := hL.at_stack k (by simp)
  simp only [stOut] at hks
  have hkstore : alookup k st1.store = none := by rw [hks.1]; exact hv
  have hkcount : prodCount k st1.log = 0 := by rw [hks.2.1]; rfl
  have hcache2 : alookup k
      ((k, (P.impl st1.counter (vis.map (fun x => x.1)), Scope.call)) :: st1.cache)
      = some (P.impl st1.counter (vis.map (fun x => x.1)), Scope.call) :=
    alookup_cons_self k _ st1.cache
  have hstep2 : resolveParam reg sa (reg.components.length + 1) (("b"), k)
      ⟨("b"), some k⟩ []
      ⟨(k, (P.impl st1.counter (vis.map (fun x => x.1)), Scope.call)) :: st1.cache,
        st1.prev, st1.store, st1.counter + 1,
        st1.log ++ [LogEntry.producerInvoked k st1.counter]⟩ =
      .ok ((P.impl st1.counter (vis.map (fun x => x.1)), Scope.call),
        ⟨(k, (P.impl st1.counter (vis.map (fun x => x.1)), Scope.call)) :: st1.cache,
          st1.prev, st1.store, st1.counter + 1,
          st1.log ++ [LogEntry.producerInvoked k st1.counter]⟩) := by
    rw [resolveParam_succ, resolveStep_cached rfl h1 h2 hcache2]
  rw [run_reader2_eq, show defaultFuel reg = reg.components.length + 1 from rfl,
    resolveParam_succ, resolveStep_producer rfl h1 h2 hc0 hres hv hb' hp hstk ha]
  dsimp only
  rw [hLr]
  dsimp only
  rw [invokeProducer_callScoped hsing hasy]
  dsimp only
  rw [hstep2]
  refine ⟨⟨P.impl st1.counter (vis.map (fun x => x.1)), rfl⟩, ?_, hkstore⟩
  show prodCount k ((st1.log ++ [LogEntry.producerInvoked k st1.counter])
    ++ [LogEntry.callableInvoked 0]) = 1
  rw [prodCount_append_call, prodCount_append_self, hkcount]

theorem c2_fresh_per_run_caching_witness :
    prodCount ckKey (Injector.run ⟨ckReg, [], 0⟩ [reader2 ckKey] []).log = 1
    ∧ alookup ckKey ((Injector.run ⟨ckReg, [], 0⟩ [reader2 ckKey] []).inj).store
        = none := by
  have h := c2_fresh_per_run_caching.1 ckReg (by decide) ckKey ckComp rfl rfl rfl
    [] 0 [] rfl rfl _ _ rfl
  exact ⟨h.2.1, h.2.2⟩

/-- C6 counterexample: a pipeline whose second callable has an
unannotated parameter fails with MissingAnnotation, but only after the
first callable has executed — the failure does not precede every callable
of the pipeline. -/
theorem c6_counterexample :
    (emptyInj.run [ranCallable, noAnnCallable] []).result = .error .missingAnn
    ∧ callCount (emptyInj.run [ranCallable, noAnnCallable] []).log = 1
    ∧ LogEntry.callableInvoked 0 ∈ (emptyInj.run [ranCallable, noAnnCallable] []).log :=
  ⟨rfl, rfl, by decide⟩

/-- C6 (amended): a parameter without a declared type fails the run with
MissingAnnotation before the callable whose resolution demanded it is
invoked (earlier pipeline callables may already have executed), a
producer input without a declared type fails the resolution before that
producer is invoked, and Injector construction with such a producer
succeeds — the error surfaces only when the producer is first demanded. -/
theorem c6_missing_annotation_deferred :
    (∀ (inj : Injector) (sa : List (String × Value)) (qs rest : List Param)
       (np : String) (out : Option TypeKey) (asy : Bool) (imp : List Value → Value)
       (args : List Value) (st1 : RunSt),
       resolveArgs inj.reg sa (defaultFuel inj.reg) qs (initRunSt inj) =
         .ok (args, st1) →
       (inj.run [⟨qs ++ ⟨np, none⟩ :: rest, out, asy, imp⟩] sa).result =
           .error .missingAnn
       ∧ (inj.run [⟨qs ++ ⟨np, none⟩ :: rest, out, asy, imp⟩] sa).log = st1.log
       ∧ (inj.reg.Wf → callCount st1.log = 0))
    ∧ (∀ (reg : Registry) (sa : List (String × Value)) (m : Nat)
         (parent : String × TypeKey) (n : String) (k : TypeKey)
         (stack : List TypeKey) (st : RunSt) (P : Producer),
         k ≠ TypeKey.returnValue → k ≠ TypeKey.parameterInfo →
         alookup k st.cache = none → alookup k reg.resolved = none →
         alookup k st.store = none →
         (findBinding reg k).bind (fun nm => alookup nm sa) = none →
         findProducer reg k = some P → k ∉ stack →
         P.inputs.any (fun q' => q'.ty.isNone) = true →
         resolveParam reg sa (m + 1) parent ⟨n, some k⟩ stack st =
           .error (.missingAnn, st))
    ∧ (∀ (components : List Producer) (initialState : List (String × TypeKey))
         (resolved : List (TypeKey × Value)),
         (⟨components, initialState, resolved⟩ : Registry).Wf →
         Injector.construct components initialState resolved =
           .ok ⟨⟨components, initialState, resolved⟩, [], 0⟩)
    ∧ (Injector.construct [naComp] [] [] = .ok naInj
       ∧ (naInj.run [reader naKey] []).result = .error .missingAnn) := by
  refine ⟨?_, ?_, ?_, ?_, rfl⟩
  · intro inj sa qs rest np out asy imp args st1 hargs
    have hbad : resolveArgs inj.reg sa (defaultFuel inj.reg)
        ((⟨np, none⟩ : Param) :: rest) st1 = .error (.missingAnn, st1) := by
      have hpstep : resolveParam inj.reg sa (inj.reg.components.length + 1)
          (np, topKey ⟨np, none⟩) ⟨np, none⟩ [] st1 =
          .error (.missingAnn, st1) := by
        rw [resolveParam_succ, resolveStep_noAnn rfl]
      simp [resolveArgs, resolveTop,
        show defaultFuel inj.reg = inj.reg.components.length + 1 from rfl, hpstep]
    have hfull : resolveArgs inj.reg sa (defaultFuel inj.reg)
        (qs ++ (⟨np, none⟩ : Param) :: rest) (initRunSt inj) =
        .error (.missingAnn, st1) := by
      rw [resolveArgs_append, hargs]
      exact hbad
    have hexec : execPipeline inj.reg sa (defaultFuel inj.reg) 0
        [⟨qs ++ ⟨np, none⟩ :: rest, out, asy, imp⟩] (initRunSt inj) =
        .error (.missingAnn, st1) := by
      simp [execPipeline, execCallable, hfull]
    refine ⟨?_, ?_, fun hwf => ?_⟩
    · simp [Injector.run, hexec]
    · simp [Injector.run, hexec]
    · have hA := resolveArgs_protect hwf sa (defaultFuel inj.reg) qs (initRunSt inj)
      rw [hargs] at hA
      have hcc := hA.calls
      simpa [initRunSt, callCount] using hcc
  · intro reg sa m parent n k stack st P h1 h2 hc hr hs hb hp hstk ha
    rw [resolveParam_succ, resolveStep_inputNoAnn rfl h1 h2 hc hr hs hb hp hstk ha]
  · intro components initialState resolved hwf
    simp [Injector.construct, hwf]
  · have hwfna : (⟨[naComp], [], []⟩ : Registry).Wf := by decide
    show Injector.construct [naComp] [] [] = .ok naInj
    simp only [Injector.construct]
    rw [if_pos hwfna]
    rfl

theorem c6_missing_annotation_deferred_witness :
    (emptyInj.run [⟨([] : List Param) ++ ⟨("x"), none⟩ :: [], none, false,
        fun _ => Value.unit⟩] []).result = .error .missingAnn := by
  have h := c6_missing_annotation_deferred.1 emptyInj [] [] [] ("x") none false
    (fun _ => Value.unit) _ _ rfl
  exact h.1

/-- C4: a callable's declared output supersedes, for every subsequent
callable in the same run, any previously cached value for that type
(including a per-call state value); the override never enters the
singleton store — the injector is returned unchanged — and it is gone in
the next run, where the state binding is extracted afresh. -/
theorem c4_output_override :
    ∀ (reg : Registry), reg.Wf → ∀ (k : TypeKey) (nb : String),
      findBinding reg k = some nb →
      ∀ (store : List (TypeKey × Value)) (cnt : Nat)
        (sa1 sa2 : List (String × Value)) (w u : Value) (n : String),
        alookup k store = none → alookup nb sa2 = some u →
        (Injector.run ⟨reg, store, cnt⟩ [constOut k w, readerNamed n k] sa1).result
            = .ok w
        ∧ ((Injector.run ⟨reg, store, cnt⟩ [constOut k w, readerNamed n k] sa1).inj)
            = ⟨reg, store, cnt⟩
        ∧ ((Injector.run ⟨reg, store, cnt⟩ [constOut k w,
            readerNamed n k] sa1).inj.run [readerNamed n k] sa2).result = .ok u := by
  intro reg hwf k nb hb store cnt sa1 sa2 w u n hv hu
  obtain ⟨h1, h2, hres, hprod⟩ := wf_binding_facts hwf hb
  have hcache : alookup k ([(k, (w, Scope.call))] : List (TypeKey × (Value × Scope)))
      = some (w, Scope.call) := alookup_cons_self k (w, Scope.call) []
  have hstep2 : resolveParam reg sa1 (reg.components.length + 1) (n, k) ⟨n, some k⟩ []
      ⟨[(k, (w, Scope.call))], w, store, cnt, [LogEntry.callableInvoked 0]⟩ =
      .ok ((w, Scope.call),
        ⟨[(k, (w, Scope.call))], w, store, cnt, [LogEntry.callableInvoked 0]⟩) := by
    rw [resolveParam_succ, resolveStep_cached rfl h1 h2 hcache]
  have hrun : Injector.run ⟨reg, store, cnt⟩ [constOut k w, readerNamed n k] sa1 =
      ⟨.ok w, ⟨reg, store, cnt⟩,
        [LogEntry.callableInvoked 0, LogEntry.callableInvoked 1]⟩ := by
    simp [Injector.run, execPipeline, execCallable, resolveArgs, resolveTop,
      constOut, readerNamed, topKey, initRunSt,
      show defaultFuel reg = reg.components.length + 1 from rfl, hstep2]
  have hb2 : (findBinding reg k).bind (fun nm => alookup nm sa2) = some u := by
    rw [hb]; simpa using hu
  have hc0 : alookup k (⟨[], initialSentinel, store, cnt, []⟩ : RunSt).cache = none := rfl
  refine ⟨by rw [hrun], by rw [hrun], ?_⟩
  rw [hrun]
  dsimp only
  rw [run_reader_eq, show defaultFuel reg = reg.components.length + 1 from rfl,
    resolveParam_succ, resolveStep_state rfl h1 h2 hc0 hres hv hb2]

theorem c4_output_override_witness :
    (Injector.run ⟨testReg, [], 0⟩ [constOut stateKey (Value.str ("ov")),
        readerNamed ("s") stateKey] testSA).result = .ok (Value.str ("ov"))
    ∧ ((Injector.run ⟨testReg, [], 0⟩ [constOut stateKey (Value.str ("ov")),
        readerNamed ("s") stateKey] testSA).inj.run
        [readerNamed ("s") stateKey] testSA).result = .ok testBlob := by
  have h := c4_output_override testReg (by decide) stateKey ("state") rfl [] 0
    testSA testSA (Value.str ("ov")) testBlob ("s") rfl rfl
  exact ⟨h.1, h.2.2⟩

theorem c10_failed_run_keeps_injector_usable_witness :
    ((Injector.run ⟨testReg, [(genKey, Value.constructed 7)], 5⟩
        [reader badKey] testSA).inj.run [readerNamed ("x") genKey] testSA).result
      = .ok (Value.constructed 7) :=
  c10_failed_run_keeps_injector_usable.2.2.1 testReg (by decide) genKey genComp rfl
    [(genKey, Value.constructed 7)] 5 [reader badKey] testSA testSA
    (Value.constructed 7) ("x") rfl

end MeowDi
